import Mathlib

/-!
# The stencil cache of `stencils.cpp`

A shallow embedding of `JSCache`, `frontend_context`, `Job::compile_script` and
`Job::ExecuteScript`, and the properties of the compile-or-fetch workflow.

The SpiderMonkey engine is external to the program.  Every call into it is
recorded as an `Event`, and what the engine answers is supplied by an `Outcomes`
record, so each statement quantifies over every possible behaviour of the engine.
-/

namespace Stencils

/-! ## Data model -/

/-- Identity of a `JS::Stencil` object; the compiled representation is opaque. -/
abbrev Stencil := Nat

/-- The type `RefPtr<JS::Stencil>`; `none` is the null pointer. -/
abbrev RefPtr := Option Stencil

/-- Identity of a `JS::FrontendContext` object. -/
abbrev FrontendContext := Nat

/-- Identity of a `JSContext` object (one per thread). -/
abbrev JSContext := Nat

/-- Lexicographic comparison of two character sequences by character code, as
`std::char_traits<char>::compare` followed by the length comparison does.  (For
UTF-8 text the order of the code points is the order of the bytes.) -/
def lexicographical_less : List Char → List Char → Bool
  | [], [] => false
  | [], _ :: _ => true
  | _ :: _, [] => false
  | a :: as, b :: bs =>
    if a.toNat < b.toNat then true
    else if b.toNat < a.toNat then false
    else lexicographical_less as bs

/-- The comparator `std::less<std::string>` of the map. -/
def std_string_less (a b : String) : Bool :=
  lexicographical_less a.toList b.toList

/-- The call `std::map::find`: `none` stands for the iterator `end()`, and
`some v` for an iterator whose `second` is `v`. -/
def std_map_find : List (String × RefPtr) → String → Option RefPtr
  | [], _ => none
  | (k, v) :: rest, key => if k = key then some v else std_map_find rest key

/-- Links a new node at its place in key order. -/
def std_map_place (key : String) (val : RefPtr) :
    List (String × RefPtr) → List (String × RefPtr)
  | [] => [(key, val)]
  | (k, v) :: rest =>
    if std_string_less key k then (key, val) :: (k, v) :: rest
    else (k, v) :: std_map_place key val rest

/-- The call `std::map::insert(pair)`: the pair is inserted only when the map
holds no element with that key; otherwise the map is left as it is. -/
def std_map_insert (m : List (String × RefPtr)) (key : String) (val : RefPtr) :
    List (String × RefPtr) :=
  match std_map_find m key with
  | some _ => m
  | none => std_map_place key val m

/-- Class `JSCache`.  The member `_cache` is the `std::map`, held as the list of
its elements in iteration order.  The mutex `_mx` makes `find` and `insert`
atomic; each is one function application here. -/
structure JSCache where
  _cache : List (String × RefPtr)
deriving DecidableEq, Repr

namespace JSCache

/-- A default-constructed cache. -/
def empty : JSCache := ⟨[]⟩

/-- The keys of the cache, in iteration order. -/
def keys (c : JSCache) : List String := c._cache.map Prod.fst

/-- Method `JSCache::find`. -/
def find (c : JSCache) (key : String) : RefPtr :=
  match std_map_find c._cache key with
  | none => none
  | some second => second

/-- Method `JSCache::insert`. -/
def insert (c : JSCache) (key : String) (val : RefPtr) : JSCache :=
  ⟨std_map_insert c._cache key val⟩

/-- No two elements of the map share a key (a `std::map` holds unique keys). -/
def UniqueKeys (c : JSCache) : Prop := c.keys.Nodup

instance (c : JSCache) : Decidable c.UniqueKeys :=
  inferInstanceAs (Decidable c.keys.Nodup)

end JSCache

/-! ## The engine boundary -/

/-- A call into the engine, or a line written through `labeled_cout()` (the
thread label is left out). -/
inductive Event where
  | cout (msg : String)
  | NewFrontendContext (result : Option FrontendContext)
  | SetNativeStackQuota (fc : FrontendContext) (quota : Nat)
  | SourceText_init (fc : FrontendContext) (script : String) (result : Bool)
  | CompileGlobalScriptToStencil (fc : FrontendContext) (filename : String)
      (linenumber : Nat) (nonSyntacticScope : Bool) (script : String) (result : RefPtr)
  | DestroyFrontendContext (fc : FrontendContext)
  | InstantiateGlobalStencil (cx : JSContext) (stencil : Stencil) (result : Bool)
  | JS_ExecuteScript (cx : JSContext) (result : Bool)
  | ReportAndClearException (cx : JSContext)
  | CreateGlobal (cx : JSContext) (result : Bool)
  | JS_DefineFunction (cx : JSContext) (name : String) (result : Bool)
deriving DecidableEq, Repr

/-- What the platform and the engine answer during one call of
`Job::ExecuteScript`; each engine function is called at most once per call. -/
structure Outcomes where
  /-- The value of `sizeof(size_t)`. -/
  sizeof_size_t : Nat
  /-- Result of `JS::NewFrontendContext()`; `none` is a null pointer. -/
  NewFrontendContext : Option FrontendContext
  /-- Result of `source.init(...)`. -/
  SourceText_init : Bool
  /-- Result of `JS::CompileGlobalScriptToStencil(...)`. -/
  CompileGlobalScriptToStencil : RefPtr
  /-- Whether `JS::InstantiateGlobalStencil(...)` yields a script. -/
  InstantiateGlobalStencil : Bool
  /-- Result of `JS_ExecuteScript(...)`. -/
  JS_ExecuteScript : Bool
deriving DecidableEq, Repr

/-- The constant `kCompileStackQuota` of `frontend_context`. -/
def kCompileStackQuota (sizeof_size_t : Nat) : Nat := 128 * sizeof_size_t * 1024

/-- Result of a call that returns a value of type `α`: the value, the frontend
contexts alive afterwards, and the events of the call, oldest first. -/
structure Returned (α : Type) where
  value : α
  live : List FrontendContext
  events : List Event
deriving DecidableEq, Repr

/-- Function `frontend_context`. -/
def frontend_context (o : Outcomes) (live : List FrontendContext) :
    Returned (Option FrontendContext) :=
  match o.NewFrontendContext with
  | some fc =>
    ⟨some fc, fc :: live,
      [Event.NewFrontendContext (some fc),
       Event.SetNativeStackQuota fc (kCompileStackQuota o.sizeof_size_t)]⟩
  | none => ⟨none, live, [Event.NewFrontendContext none]⟩

/-- The line number that `opts.setFileAndLine(filename, linenumber)` stores: the
`unsigned long` argument is converted to the 32-bit unsigned line parameter of
`JS::CompileOptions::setFileAndLine`, so only its low 32 bits arrive. -/
def setFileAndLine_lineno (linenumber : Nat) : Nat := linenumber % 2 ^ 32

/-- Method `Job::compile_script`.  The compiler is handed the options, so the
event of the compiler call carries the line number as the options store it. -/
def compile_script (script filename : String) (linenumber : Nat) (o : Outcomes)
    (live : List FrontendContext) : Returned RefPtr :=
  let r := frontend_context o live
  match r.value with
  | none => ⟨none, r.live, r.events⟩
  | some fc =>
    if !o.SourceText_init then
      ⟨none, r.live.erase fc,
        r.events ++ [Event.SourceText_init fc script false,
          Event.cout "Error initializing JS source\n",
          Event.DestroyFrontendContext fc]⟩
    else
      let st := o.CompileGlobalScriptToStencil
      let compiled := r.events ++ [Event.SourceText_init fc script true,
        Event.CompileGlobalScriptToStencil fc filename (setFileAndLine_lineno linenumber)
          true script st]
      let reported :=
        if st = none then
          compiled ++
            [Event.cout "Error compiling script, presumably due to a syntax error.\n"]
        else compiled
      ⟨st, r.live.erase fc, reported ++ [Event.DestroyFrontendContext fc]⟩

/-- State after a call of `Job::ExecuteScript`.  The function is `void`: `ret`
is all that the caller receives from it. -/
structure JobResult where
  ret : Unit
  cache : JSCache
  live : List FrontendContext
  events : List Event
deriving DecidableEq, Repr

/-- Lines 94-104 of `Job::ExecuteScript`: the lookup and, on a miss, the
compilation and the insertion.  The value is the local `stencil`. -/
def ExecuteScript_fetch (_cache : JSCache) (live : List FrontendContext)
    (script filename : String) (linenumber : Nat) (o : Outcomes) :
    RefPtr × JobResult :=
  match _cache.find script with
  | none =>
    let r := compile_script script filename linenumber o live
    let events := Event.cout "Compiling script\n" :: r.events
    match r.value with
    | some st => (some st, ⟨(), _cache.insert script (some st), r.live, events⟩)
    | none => (none, ⟨(), _cache, r.live, events⟩)
  | some st =>
    (some st, ⟨(), _cache, live, [Event.cout "Taking script from cache\n"]⟩)

/-- Lines 106-119 of `Job::ExecuteScript`: instantiation and execution. -/
def ExecuteScript_run (cx : JSContext) (stencil : RefPtr) (o : Outcomes) : List Event :=
  match stencil with
  | none => []
  | some st =>
    if !o.InstantiateGlobalStencil then
      [Event.InstantiateGlobalStencil cx st false, Event.ReportAndClearException cx]
    else if !o.JS_ExecuteScript then
      [Event.InstantiateGlobalStencil cx st true, Event.JS_ExecuteScript cx false,
        Event.ReportAndClearException cx]
    else
      [Event.InstantiateGlobalStencil cx st true, Event.JS_ExecuteScript cx true]

/-- Method `Job::ExecuteScript`, on the cache the job refers to. -/
def ExecuteScript (_cache : JSCache) (live : List FrontendContext) (cx : JSContext)
    (script filename : String) (linenumber : Nat) (o : Outcomes) : JobResult :=
  let f := ExecuteScript_fetch _cache live script filename linenumber o
  { f.2 with events := f.2.events ++ ExecuteScript_run cx f.1 o }

/-! ## Reading a list of events -/

/-- The event is a call of the compiler on `script`. -/
def Event.isCompileOf (script : String) : Event → Bool
  | .CompileGlobalScriptToStencil _ _ _ _ s _ => decide (s = script)
  | _ => false

/-- The event is a call of the compiler. -/
def Event.isCompile : Event → Bool
  | .CompileGlobalScriptToStencil _ _ _ _ _ _ => true
  | _ => false

/-- The event is a call of `JS::InstantiateGlobalStencil`. -/
def Event.isInstantiate : Event → Bool
  | .InstantiateGlobalStencil _ _ _ => true
  | _ => false

/-- The event is a call of `JS_ExecuteScript`. -/
def Event.isExecute : Event → Bool
  | .JS_ExecuteScript _ _ => true
  | _ => false

/-- The event is a call that is handed the frontend context `fc`. -/
def Event.uses (fc : FrontendContext) : Event → Bool
  | .SetNativeStackQuota f _ => decide (f = fc)
  | .SourceText_init f _ _ => decide (f = fc)
  | .CompileGlobalScriptToStencil f _ _ _ _ _ => decide (f = fc)
  | .DestroyFrontendContext f => decide (f = fc)
  | _ => false

/-- Number of compiler invocations on `script` among the events. -/
def compileCount (script : String) (events : List Event) : Nat :=
  events.countP (Event.isCompileOf script)

/-! ## Sequential runs of jobs on one cache -/

/-- One call `job.ExecuteScript(cx, script, filename, linenumber)`, with what
the engine answers during it. -/
structure JobCall where
  cx : JSContext
  script : String
  filename : String
  linenumber : Nat
  outcomes : Outcomes
deriving DecidableEq, Repr

/-- State of a thread of control working on the cache: the cache, the live
frontend contexts and every event so far, oldest first. -/
structure RunState where
  cache : JSCache
  live : List FrontendContext
  trace : List Event
deriving DecidableEq, Repr

/-- The result of one job, run from a state. -/
def JobCall.result (j : JobCall) (s : RunState) : JobResult :=
  ExecuteScript s.cache s.live j.cx j.script j.filename j.linenumber j.outcomes

/-- Runs one job. -/
def runJob (s : RunState) (j : JobCall) : RunState :=
  let r := j.result s
  ⟨r.cache, r.live, s.trace ++ r.events⟩

/-- Runs jobs one after the other, as the loop of `ExecuteExamples` does. -/
def runJobs (s : RunState) (js : List JobCall) : RunState :=
  js.foldl runJob s

/-- An operation on the cache: a call of one of its two methods, or a job. -/
inductive CacheOp where
  | find (key : String)
  | insert (key : String) (val : RefPtr)
  | ExecuteScript (j : JobCall)
deriving DecidableEq, Repr

/-- Applies one operation; the value returned by `find` is dropped. -/
def applyOp (s : RunState) : CacheOp → RunState
  | .find _ => s
  | .insert key val => { s with cache := s.cache.insert key val }
  | .ExecuteScript j => runJob s j

/-- Applies operations one after the other. -/
def applyOps (s : RunState) (ops : List CacheOp) : RunState :=
  ops.foldl applyOp s

/-- An engine that succeeds at every step; the compiler yields `st`. -/
def Outcomes.allSucceed (fc : FrontendContext) (st : Stencil) : Outcomes :=
  ⟨8, some fc, true, some st, true, true⟩

/-- An engine whose compiler rejects the script, as it does for a syntax error. -/
def Outcomes.syntaxError (fc : FrontendContext) : Outcomes :=
  ⟨8, some fc, true, none, true, true⟩

/-- An engine that compiles to `st` and then fails to instantiate. -/
def Outcomes.instantiateFails (fc : FrontendContext) (st : Stencil) : Outcomes :=
  ⟨8, some fc, true, some st, false, true⟩

/-- The script `js1` of `ExecuteExamples`. -/
def js1 : String := "\n        print(`JS log one: $\x7bnew Date()\x7d`);\n        "

/-- The script `js2` of `ExecuteExamples`, which has a syntax error. -/
def js2 : String := "\n        await print(`JS log two: $\x7bnew Date()\x7d`);\n        "

/-- The script `js3` of `ExecuteExamples`. -/
def js3 : String := "\n        print(`JS log three: $\x7bnew Date()\x7d`);\n        "

/-- What the engine answers during one call of `ExecuteExamples`. -/
structure ExamplesOutcomes where
  CreateGlobal : Bool
  DefineFunctions : Bool
  js1 : Outcomes
  js2 : Outcomes
  js3 : Outcomes
deriving DecidableEq, Repr

/-- Function `ExecuteExamples`. -/
def ExecuteExamples (s : RunState) (cx : JSContext) (o : ExamplesOutcomes) : RunState :=
  if !o.CreateGlobal then
    { s with trace := s.trace ++ [Event.CreateGlobal cx false,
        Event.cout "Failed during boilerplate::CreateGlobal\n"] }
  else if !o.DefineFunctions then
    { s with trace := s.trace ++ [Event.CreateGlobal cx true,
        Event.JS_DefineFunction cx "print" false, Event.ReportAndClearException cx] }
  else
    runJobs { s with trace := s.trace ++ [Event.CreateGlobal cx true,
        Event.JS_DefineFunction cx "print" true] }
      [⟨cx, js1, "none", 1, o.js1⟩, ⟨cx, js2, "none", 2, o.js2⟩, ⟨cx, js3, "none", 3, o.js3⟩]

/-! ## Threads sharing one cache

Each thread runs `Job::ExecuteScript` once.  The lock of `JSCache` makes `find`
and `insert` atomic; compilation, instantiation and execution touch only what
the thread owns.  So a thread advances by the steps below, and a run of the
program is an interleaving of the steps of its threads. -/

/-- Where a thread stands in `Job::ExecuteScript`. -/
inductive Pc where
  /-- Line 94 is next: the lookup. -/
  | lookup
  /-- Line 99 is next: the lookup returned null. -/
  | compiling
  /-- Line 101 is next: `compile_script` returned the non-null `stencil`. -/
  | inserting (stencil : Stencil)
  /-- Line 106 is next, with the local `stencil`. -/
  | instantiating (stencil : RefPtr)
  /-- Line 115 is next: the instantiation succeeded. -/
  | executing
  /-- The function has returned. -/
  | returned
deriving DecidableEq, Repr

/-- Number of steps a thread at this point has behind it, at least. -/
def Pc.rank : Pc → Nat
  | .lookup => 0
  | .compiling => 1
  | .inserting _ => 2
  | .instantiating _ => 3
  | .executing => 4
  | .returned => 5

/-- A thread: its call, where it stands, the frontend contexts it holds and its
events so far. -/
structure Thread where
  call : JobCall
  pc : Pc
  live : List FrontendContext
  events : List Event
deriving DecidableEq, Repr

/-- A thread about to enter `Job::ExecuteScript`. -/
def Thread.start (j : JobCall) (live : List FrontendContext) : Thread :=
  ⟨j, .lookup, live, []⟩

/-- One step of a thread on the shared cache. -/
def Thread.step (cache : JSCache) (t : Thread) : JSCache × Thread :=
  match t.pc with
  | .lookup =>
    match cache.find t.call.script with
    | none =>
      (cache, { t with pc := .compiling,
                       events := t.events ++ [Event.cout "Compiling script\n"] })
    | some st =>
      (cache, { t with pc := .instantiating (some st),
                       events := t.events ++ [Event.cout "Taking script from cache\n"] })
  | .compiling =>
    let r := compile_script t.call.script t.call.filename t.call.linenumber t.call.outcomes
      t.live
    match r.value with
    | some st =>
      (cache, { t with pc := .inserting st, live := r.live, events := t.events ++ r.events })
    | none =>
      (cache, { t with pc := .instantiating none, live := r.live,
                       events := t.events ++ r.events })
  | .inserting st =>
    (cache.insert t.call.script (some st), { t with pc := .instantiating (some st) })
  | .instantiating none => (cache, { t with pc := .returned })
  | .instantiating (some st) =>
    if !t.call.outcomes.InstantiateGlobalStencil then
      (cache, { t with pc := .returned,
                       events := t.events ++ [Event.InstantiateGlobalStencil t.call.cx st false,
                         Event.ReportAndClearException t.call.cx] })
    else
      (cache, { t with pc := .executing,
                       events := t.events ++ [Event.InstantiateGlobalStencil t.call.cx st true] })
  | .executing =>
    if !t.call.outcomes.JS_ExecuteScript then
      (cache, { t with pc := .returned,
                       events := t.events ++ [Event.JS_ExecuteScript t.call.cx false,
                         Event.ReportAndClearException t.call.cx] })
    else
      (cache, { t with pc := .returned,
                       events := t.events ++ [Event.JS_ExecuteScript t.call.cx true] })
  | .returned => (cache, t)

/-- A thread taking `n` steps with no other thread in between. -/
def Thread.stepsAlone (cache : JSCache) (t : Thread) : Nat → JSCache × Thread
  | 0 => (cache, t)
  | n + 1 => Thread.stepsAlone (t.step cache).1 (t.step cache).2 n

/-- The shared cache and the threads working on it. -/
structure Shared where
  cache : JSCache
  threads : List Thread
deriving DecidableEq, Repr

/-- The program at the start: an empty cache, and one thread for each call. -/
def Shared.start (calls : List JobCall) : Shared :=
  ⟨JSCache.empty, calls.map (fun j => Thread.start j [])⟩

/-- Thread `i` takes one step; nothing happens when there is no such thread. -/
def Shared.step (s : Shared) (i : Nat) : Shared :=
  match s.threads[i]? with
  | none => s
  | some t => ⟨(t.step s.cache).1, s.threads.set i (t.step s.cache).2⟩

/-- The threads take steps in the order of the schedule. -/
def Shared.run (s : Shared) (schedule : List Nat) : Shared :=
  schedule.foldl Shared.step s

/-- Number of compiler invocations, over all threads. -/
def Shared.compilerCalls (s : Shared) : Nat :=
  (s.threads.map (fun t => t.events.countP Event.isCompile)).sum

/-- Some thread has compiled `S` to the artifact `a`. -/
def Shared.Compiled (s : Shared) (S : String) (a : Stencil) : Prop :=
  ∃ t ∈ s.threads, ∃ fc fn ln,
    Event.CompileGlobalScriptToStencil fc fn ln true S (some a) ∈ t.events

/-- The compiler accepts the script of the call, and a frontend context and the
source text are available to it. -/
def JobCall.Compiles (j : JobCall) : Prop :=
  j.outcomes.NewFrontendContext ≠ none ∧ j.outcomes.SourceText_init = true ∧
    j.outcomes.CompileGlobalScriptToStencil ≠ none

instance (j : JobCall) : Decidable j.Compiles :=
  inferInstanceAs (Decidable (_ ∧ _ ∧ _))

/-- What holds of a thread that runs a job on `S` whose compilation succeeds,
at each point of `Job::ExecuteScript`. -/
def Thread.Inv (S : String) (s : Shared) (t : Thread) : Prop :=
  t.call.script = S ∧ t.call.Compiles ∧ t.events.countP Event.isCompile ≤ 1 ∧
  match t.pc with
  | .lookup => t.events.countP Event.isCompile = 0
  | .compiling => t.events.countP Event.isCompile = 0
  | .inserting a => ∃ fc fn ln,
      Event.CompileGlobalScriptToStencil fc fn ln true S (some a) ∈ t.events
  | .instantiating st => s.cache._cache ≠ [] ∧ ∃ a, st = some a ∧ s.Compiled S a
  | .executing => s.cache._cache ≠ [] ∧
      ∃ a, s.Compiled S a ∧ Event.InstantiateGlobalStencil t.call.cx a true ∈ t.events
  | .returned => s.cache._cache ≠ [] ∧
      ∃ a r, s.Compiled S a ∧ Event.InstantiateGlobalStencil t.call.cx a r ∈ t.events

/-- What holds of the program while threads run jobs on `S`: the cache is empty
or holds one artifact, compiled by a thread, under `S`. -/
def Shared.Inv (S : String) (s : Shared) : Prop :=
  (s.cache._cache = [] ∨ ∃ a, s.cache._cache = [(S, some a)] ∧ s.Compiled S a) ∧
  ∀ t ∈ s.threads, t.Inv S s

/-! ## The map -/

theorem std_map_find_eq_none_iff (m : List (String × RefPtr)) (key : String) :
    std_map_find m key = none ↔ key ∉ m.map Prod.fst := by
  induction m with
  | nil => simp [std_map_find]
  | cons e rest ih =>
    obtain ⟨k, v⟩ := e
    by_cases hk : k = key
    · simp [std_map_find, hk]
    · have hk2 : ¬ key = k := fun h => hk h.symm
      simp [std_map_find, hk, hk2, ih]

theorem std_map_find_mem (m : List (String × RefPtr)) (key : String) (v : RefPtr)
    (h : std_map_find m key = some v) : (key, v) ∈ m := by
  induction m with
  | nil => simp [std_map_find] at h
  | cons e rest ih =>
    obtain ⟨k, w⟩ := e
    by_cases hk : k = key
    · simp [std_map_find, hk] at h
      simp [hk, h]
    · simp [std_map_find, hk] at h
      exact List.mem_cons_of_mem _ (ih h)

theorem std_map_find_of_mem (m : List (String × RefPtr)) (key : String) (v : RefPtr)
    (hu : (m.map Prod.fst).Nodup) (h : (key, v) ∈ m) : std_map_find m key = some v := by
  induction m with
  | nil => simp at h
  | cons e rest ih =>
    obtain ⟨k, w⟩ := e
    simp only [List.map_cons, List.nodup_cons] at hu
    rcases List.mem_cons.mp h with heq | hin
    · simp only [Prod.mk.injEq] at heq
      simp [std_map_find, heq.1, heq.2]
    · have hk : k ≠ key := by
        intro hk
        apply hu.1
        rw [hk]
        exact List.mem_map.mpr ⟨(key, v), hin, rfl⟩
      simp only [std_map_find, hk, if_false]
      exact ih hu.2 hin

theorem mem_std_map_place (key : String) (val : RefPtr) (m : List (String × RefPtr))
    (e : String × RefPtr) : e ∈ std_map_place key val m ↔ e = (key, val) ∨ e ∈ m := by
  induction m with
  | nil => simp [std_map_place]
  | cons x rest ih =>
    obtain ⟨k, v⟩ := x
    by_cases hlt : std_string_less key k = true
    · simp [std_map_place, hlt]
    · simp only [std_map_place, hlt, if_false, List.mem_cons, ih, Bool.false_eq_true]
      tauto

theorem std_map_find_place_self (key : String) (val : RefPtr) (m : List (String × RefPtr))
    (h : std_map_find m key = none) : std_map_find (std_map_place key val m) key = some val := by
  induction m with
  | nil => simp [std_map_place, std_map_find]
  | cons x rest ih =>
    obtain ⟨k, v⟩ := x
    by_cases hk : k = key
    · simp [std_map_find, hk] at h
    · simp only [std_map_find, hk, if_false] at h
      by_cases hlt : std_string_less key k = true
      · simp [std_map_place, hlt, std_map_find]
      · simp [std_map_place, hlt, std_map_find, hk, ih h]

theorem std_map_find_place_ne (key : String) (val : RefPtr) (m : List (String × RefPtr))
    (k' : String) (h : k' ≠ key) :
    std_map_find (std_map_place key val m) k' = std_map_find m k' := by
  have h2 : ¬ key = k' := fun e => h e.symm
  induction m with
  | nil => simp [std_map_place, std_map_find, h2]
  | cons x rest ih =>
    obtain ⟨k, v⟩ := x
    by_cases hlt : std_string_less key k = true
    · simp [std_map_place, hlt, std_map_find, h2]
    · simp [std_map_place, hlt, std_map_find, ih]

theorem std_map_insert_present (m : List (String × RefPtr)) (key : String) (v val : RefPtr)
    (h : std_map_find m key = some v) : std_map_insert m key val = m := by
  simp [std_map_insert, h]

theorem std_map_insert_absent (m : List (String × RefPtr)) (key : String) (val : RefPtr)
    (h : std_map_find m key = none) : std_map_insert m key val = std_map_place key val m := by
  simp [std_map_insert, h]

theorem std_map_find_insert_of_present (m : List (String × RefPtr)) (k : String) (a : RefPtr)
    (h : std_map_find m k = some a) (key : String) (val : RefPtr) :
    std_map_find (std_map_insert m key val) k = some a := by
  cases hf : std_map_find m key with
  | some w => rw [std_map_insert_present m key w val hf, h]
  | none =>
    rw [std_map_insert_absent m key val hf]
    have hne : k ≠ key := by
      intro e
      rw [e, hf] at h
      cases h
    rw [std_map_find_place_ne key val m k hne, h]

theorem mem_std_map_insert_of_mem (m : List (String × RefPtr)) (key : String) (val : RefPtr)
    (e : String × RefPtr) (h : e ∈ m) : e ∈ std_map_insert m key val := by
  cases hf : std_map_find m key with
  | some w => rw [std_map_insert_present m key w val hf]; exact h
  | none =>
    rw [std_map_insert_absent m key val hf]
    exact (mem_std_map_place key val m e).mpr (Or.inr h)

theorem mem_keys_std_map_place (key : String) (val : RefPtr) (m : List (String × RefPtr))
    (x : String) :
    x ∈ (std_map_place key val m).map Prod.fst ↔ x = key ∨ x ∈ m.map Prod.fst := by
  simp only [List.mem_map, mem_std_map_place]
  constructor
  · rintro ⟨e, he | he, rfl⟩
    · left; rw [he]
    · right; exact ⟨e, he, rfl⟩
  · rintro (rfl | ⟨e, he, rfl⟩)
    · exact ⟨(x, val), Or.inl rfl, rfl⟩
    · exact ⟨e, Or.inr he, rfl⟩

theorem nodup_keys_std_map_place (key : String) (val : RefPtr) (m : List (String × RefPtr))
    (habs : key ∉ m.map Prod.fst) (hu : (m.map Prod.fst).Nodup) :
    ((std_map_place key val m).map Prod.fst).Nodup := by
  induction m with
  | nil => simp [std_map_place]
  | cons x rest ih =>
    obtain ⟨k, v⟩ := x
    simp only [List.map_cons, List.mem_cons, not_or] at habs
    simp only [List.map_cons, List.nodup_cons] at hu
    by_cases hlt : std_string_less key k = true
    · simp only [std_map_place, hlt, if_true, List.map_cons, List.nodup_cons, List.mem_cons,
        not_or]
      exact ⟨⟨habs.1, habs.2⟩, hu.1, hu.2⟩
    · simp only [std_map_place, hlt, Bool.false_eq_true, if_false, List.map_cons,
        List.nodup_cons, mem_keys_std_map_place, not_or]
      exact ⟨⟨fun e => habs.1 e.symm, hu.1⟩, ih habs.2 hu.2⟩

/-- A `std::map` keeps its keys unique under `insert`. -/
theorem JSCache.insert_UniqueKeys (c : JSCache) (hu : c.UniqueKeys) (key : String)
    (val : RefPtr) : (c.insert key val).UniqueKeys := by
  unfold JSCache.UniqueKeys JSCache.keys JSCache.insert
  cases hf : std_map_find c._cache key with
  | some w => rw [std_map_insert_present c._cache key w val hf]; exact hu
  | none =>
    rw [std_map_insert_absent c._cache key val hf]
    exact nodup_keys_std_map_place key val c._cache
      ((std_map_find_eq_none_iff c._cache key).mp hf) hu

/-! ## `JSCache::find` and `JSCache::insert` -/

/-- Claim C1.  On a cache whose keys are unique, `find` returns the handle stored
under the key when the key is present, the null handle when the key is absent (on
the empty cache, for every key), and a non-null handle it returns is stored
under the very key that was asked for. -/
theorem JSCache.find_faithful (c : JSCache) (key : String) (hu : c.UniqueKeys) :
    (∀ v, (key, v) ∈ c._cache → c.find key = v) ∧
    (key ∉ c.keys → c.find key = none) ∧
    JSCache.empty.find key = none ∧
    (∀ st, c.find key = some st → (key, some st) ∈ c._cache) := by
  refine ⟨?_, ?_, ?_, ?_⟩
  · intro v hv
    simp [JSCache.find, std_map_find_of_mem c._cache key v hu hv]
  · intro hk
    have := (std_map_find_eq_none_iff c._cache key).mpr hk
    simp [JSCache.find, this]
  · simp [JSCache.find, JSCache.empty, std_map_find]
  · intro st hst
    unfold JSCache.find at hst
    cases hf : std_map_find c._cache key with
    | none => rw [hf] at hst; cases hst
    | some w =>
      rw [hf] at hst
      simp only at hst
      rw [hst] at hf
      exact std_map_find_mem _ _ _ hf

/-- The theorem `JSCache.find_faithful` at a cache of two scripts: the lookup of
the second key returns the second handle. -/
theorem JSCache.find_faithful_witness :
    (JSCache.mk [("a", some 1), ("b", some 2)]).UniqueKeys ∧
      (JSCache.mk [("a", some 1), ("b", some 2)]).find "b" = some 2 :=
  ⟨by decide,
    (JSCache.find_faithful ⟨[("a", some 1), ("b", some 2)]⟩ "b" (by decide)).1 (some 2)
      (by decide)⟩

/-- Claim C2.  When `key` is absent, after `insert(key, a)` the call `find(key)`
returns `a` and `find` on every other key returns what it returned before; keys
are compared as whole strings. -/
theorem JSCache.insert_stores (c : JSCache) (key : String) (a : RefPtr)
    (habs : key ∉ c.keys) :
    (c.insert key a).find key = a ∧
    (∀ k', k' ≠ key → (c.insert key a).find k' = c.find k') ∧
    (key, a) ∈ (c.insert key a)._cache := by
  have hf := (std_map_find_eq_none_iff c._cache key).mpr habs
  refine ⟨?_, ?_, ?_⟩
  · simp [JSCache.find, JSCache.insert, std_map_insert_absent _ _ _ hf,
      std_map_find_place_self _ _ _ hf]
  · intro k' hk'
    simp [JSCache.find, JSCache.insert, std_map_insert_absent _ _ _ hf,
      std_map_find_place_ne _ _ _ _ hk']
  · simp [JSCache.insert, std_map_insert_absent _ _ _ hf, mem_std_map_place]

/-- The theorem `JSCache.insert_stores` at a cache that holds `js1`, inserting
`js3`. -/
theorem JSCache.insert_stores_witness :
    js3 ∉ (JSCache.mk [(js1, some 1)]).keys ∧
      ((JSCache.mk [(js1, some 1)]).insert js3 (some 7)).find js3 = some 7 ∧
      ((JSCache.mk [(js1, some 1)]).insert js3 (some 7)).find js1 =
        (JSCache.mk [(js1, some 1)]).find js1 :=
  ⟨by decide, (JSCache.insert_stores ⟨[(js1, some 1)]⟩ js3 (some 7) (by decide)).1,
    (JSCache.insert_stores ⟨[(js1, some 1)]⟩ js3 (some 7) (by decide)).2.1 js1 (by decide)⟩

/-! ## `Job::compile_script` -/

theorem compile_script_value (script filename : String) (linenumber : Nat) (o : Outcomes)
    (live : List FrontendContext) :
    (compile_script script filename linenumber o live).value =
      if o.NewFrontendContext ≠ none ∧ o.SourceText_init = true
      then o.CompileGlobalScriptToStencil else none := by
  obtain ⟨sz, nfc, ini, cmp, ins, exe⟩ := o
  cases nfc <;> cases ini <;> simp [compile_script, frontend_context]

theorem compile_script_live (script filename : String) (linenumber : Nat) (o : Outcomes)
    (live : List FrontendContext) :
    (compile_script script filename linenumber o live).live = live := by
  obtain ⟨sz, nfc, ini, cmp, ins, exe⟩ := o
  cases nfc <;> cases ini <;> simp [compile_script, frontend_context]

/-- Claim C9.  Whatever the engine answers, `compile_script` leaves the live
frontend contexts as they were.  When it acquired a context, its events start with
the acquisition and end with the one destruction of that context, so every use
of the context comes before the destruction; and it hands no other context to
the engine.  When no context was acquired, it makes no further engine call. -/
theorem compile_script_releases_context (script filename : String) (linenumber : Nat)
    (o : Outcomes) (live : List FrontendContext) :
    (compile_script script filename linenumber o live).live = live ∧
    (∀ fc, o.NewFrontendContext = some fc →
      ∃ uses, (compile_script script filename linenumber o live).events =
          Event.NewFrontendContext (some fc) :: uses ++ [Event.DestroyFrontendContext fc] ∧
        Event.DestroyFrontendContext fc ∉ uses ∧
        (∀ e ∈ uses, ∀ r, e ≠ Event.NewFrontendContext r) ∧
        (∀ e ∈ uses, ∀ fc', e.uses fc' = true → fc' = fc)) ∧
    (o.NewFrontendContext = none →
      (compile_script script filename linenumber o live).events =
        [Event.NewFrontendContext none]) := by
  refine ⟨compile_script_live script filename linenumber o live, ?_, ?_⟩
  · intro fc hfc
    obtain ⟨sz, nfc, ini, cmp, ins, exe⟩ := o
    simp only at hfc
    subst hfc
    cases ini
    · refine ⟨[Event.SetNativeStackQuota fc (kCompileStackQuota sz),
        Event.SourceText_init fc script false,
        Event.cout "Error initializing JS source\n"], ?_, ?_, ?_, ?_⟩
      · simp [compile_script, frontend_context]
      · simp
      · simp
      · intro e he fc' hu
        simp only [List.mem_cons, List.mem_singleton, List.not_mem_nil, or_false] at he
        rcases he with rfl | rfl | rfl <;> simp_all [Event.uses]
    · cases cmp with
      | none =>
        refine ⟨[Event.SetNativeStackQuota fc (kCompileStackQuota sz),
          Event.SourceText_init fc script true,
          Event.CompileGlobalScriptToStencil fc filename (setFileAndLine_lineno linenumber)
            true script none,
          Event.cout "Error compiling script, presumably due to a syntax error.\n"],
          ?_, ?_, ?_, ?_⟩
        · simp [compile_script, frontend_context]
        · simp
        · simp
        · intro e he fc' hu
          simp only [List.mem_cons, List.mem_singleton, List.not_mem_nil, or_false] at he
          rcases he with rfl | rfl | rfl | rfl <;> simp_all [Event.uses]
      | some st =>
        refine ⟨[Event.SetNativeStackQuota fc (kCompileStackQuota sz),
          Event.SourceText_init fc script true,
          Event.CompileGlobalScriptToStencil fc filename (setFileAndLine_lineno linenumber)
            true script (some st)],
          ?_, ?_, ?_, ?_⟩
        · simp [compile_script, frontend_context]
        · simp
        · simp
        · intro e he fc' hu
          simp only [List.mem_cons, List.mem_singleton, List.not_mem_nil, or_false] at he
          rcases he with rfl | rfl | rfl <;> simp_all [Event.uses]
  · intro hnone
    obtain ⟨sz, nfc, ini, cmp, ins, exe⟩ := o
    simp only at hnone
    subst hnone
    simp [compile_script, frontend_context]

theorem compile_script_events_not_run (script filename : String) (linenumber : Nat)
    (o : Outcomes) (live : List FrontendContext) :
    ∀ e ∈ (compile_script script filename linenumber o live).events,
      e.isInstantiate = false ∧ e.isExecute = false := by
  obtain ⟨sz, nfc, ini, cmp, ins, exe⟩ := o
  cases nfc <;> cases ini <;> cases cmp <;>
    simp [compile_script, frontend_context, Event.isInstantiate, Event.isExecute]

theorem compile_script_event_result (script filename : String) (linenumber : Nat)
    (o : Outcomes) (live : List FrontendContext) (fc : FrontendContext) (fn : String)
    (ln : Nat) (ns : Bool) (s : String) (r : RefPtr)
    (h : Event.CompileGlobalScriptToStencil fc fn ln ns s r ∈
      (compile_script script filename linenumber o live).events) :
    s = script ∧ fn = filename ∧ ln = setFileAndLine_lineno linenumber ∧
      r = (compile_script script filename linenumber o live).value := by
  obtain ⟨sz, nfc, ini, cmp, ins, exe⟩ := o
  cases nfc <;> cases ini <;> cases cmp <;>
    simp [compile_script, frontend_context] at h ⊢ <;> simp [h]

theorem compile_script_isCompileOf (script filename : String) (linenumber : Nat)
    (o : Outcomes) (live : List FrontendContext) (S : String) (e : Event)
    (he : e ∈ (compile_script script filename linenumber o live).events)
    (hc : e.isCompileOf S = true) : script = S := by
  cases e with
  | CompileGlobalScriptToStencil fc fn ln ns s r =>
    have := (compile_script_event_result script filename linenumber o live fc fn ln ns s r he).1
    simp [Event.isCompileOf] at hc
    rw [← this, hc]
  | _ => simp [Event.isCompileOf] at hc

/-! ## `Job::ExecuteScript`, path by path -/

theorem ExecuteScript_run_events (cx : JSContext) (a : Stencil) (o : Outcomes) :
    ExecuteScript_run cx (some a) o =
      Event.InstantiateGlobalStencil cx a o.InstantiateGlobalStencil ::
        (if o.InstantiateGlobalStencil = false then [Event.ReportAndClearException cx]
         else if o.JS_ExecuteScript = false then
           [Event.JS_ExecuteScript cx false, Event.ReportAndClearException cx]
         else [Event.JS_ExecuteScript cx true]) := by
  obtain ⟨sz, nfc, ini, cmp, ins, exe⟩ := o
  cases ins <;> cases exe <;> simp [ExecuteScript_run]

theorem ExecuteScript_run_not_compile (cx : JSContext) (st : RefPtr) (o : Outcomes) :
    ∀ e ∈ ExecuteScript_run cx st o, e.isCompile = false ∧ ∀ S, e.isCompileOf S = false := by
  obtain ⟨sz, nfc, ini, cmp, ins, exe⟩ := o
  cases st <;> cases ins <;> cases exe <;>
    simp [ExecuteScript_run, Event.isCompile, Event.isCompileOf]

theorem ExecuteScript_hit (c : JSCache) (live : List FrontendContext) (cx : JSContext)
    (S fn : String) (ln : Nat) (o : Outcomes) (a : Stencil) (h : c.find S = some a) :
    ExecuteScript c live cx S fn ln o =
      ⟨(), c, live, Event.cout "Taking script from cache\n" :: ExecuteScript_run cx (some a) o⟩ := by
  simp [ExecuteScript, ExecuteScript_fetch, h]

theorem ExecuteScript_miss_failed (c : JSCache) (live : List FrontendContext) (cx : JSContext)
    (S fn : String) (ln : Nat) (o : Outcomes) (h : c.find S = none)
    (hv : (compile_script S fn ln o live).value = none) :
    ExecuteScript c live cx S fn ln o =
      ⟨(), c, live, Event.cout "Compiling script\n" :: (compile_script S fn ln o live).events⟩ := by
  simp [ExecuteScript, ExecuteScript_fetch, h, hv, ExecuteScript_run, compile_script_live]

theorem ExecuteScript_miss_compiled (c : JSCache) (live : List FrontendContext)
    (cx : JSContext) (S fn : String) (ln : Nat) (o : Outcomes) (a : Stencil)
    (h : c.find S = none) (hv : (compile_script S fn ln o live).value = some a) :
    ExecuteScript c live cx S fn ln o =
      ⟨(), c.insert S (some a), live,
        Event.cout "Compiling script\n" :: (compile_script S fn ln o live).events ++
          ExecuteScript_run cx (some a) o⟩ := by
  simp [ExecuteScript, ExecuteScript_fetch, h, hv, compile_script_live]

theorem ExecuteScript_cache (c : JSCache) (live : List FrontendContext) (cx : JSContext)
    (S fn : String) (ln : Nat) (o : Outcomes) :
    (ExecuteScript c live cx S fn ln o).cache = c ∨
      ∃ a, c.find S = none ∧ (ExecuteScript c live cx S fn ln o).cache = c.insert S (some a) := by
  cases hf : c.find S with
  | some a => left; rw [ExecuteScript_hit c live cx S fn ln o a hf]
  | none =>
    cases hv : (compile_script S fn ln o live).value with
    | none => left; rw [ExecuteScript_miss_failed c live cx S fn ln o hf hv]
    | some a =>
      right
      exact ⟨a, rfl, by rw [ExecuteScript_miss_compiled c live cx S fn ln o a hf hv]⟩

theorem ExecuteScript_live (c : JSCache) (live : List FrontendContext) (cx : JSContext)
    (S fn : String) (ln : Nat) (o : Outcomes) :
    (ExecuteScript c live cx S fn ln o).live = live := by
  cases hf : c.find S with
  | some a => rw [ExecuteScript_hit c live cx S fn ln o a hf]
  | none =>
    cases hv : (compile_script S fn ln o live).value with
    | none => rw [ExecuteScript_miss_failed c live cx S fn ln o hf hv]
    | some a => rw [ExecuteScript_miss_compiled c live cx S fn ln o a hf hv]

/-- A compiler call among the events of a job means that the job missed the
cache, and the call is on the job's own script with the job's own filename and
the low 32 bits of the job's own line number. -/
theorem ExecuteScript_compile_event (c : JSCache) (live : List FrontendContext)
    (cx : JSContext) (S fn : String) (ln : Nat) (o : Outcomes) (fc : FrontendContext)
    (fn' : String) (ln' : Nat) (ns : Bool) (s : String) (r : RefPtr)
    (h : Event.CompileGlobalScriptToStencil fc fn' ln' ns s r ∈
      (ExecuteScript c live cx S fn ln o).events) :
    c.find S = none ∧ s = S ∧ fn' = fn ∧ ln' = setFileAndLine_lineno ln ∧
      r = (compile_script S fn ln o live).value := by
  cases hf : c.find S with
  | some a =>
    rw [ExecuteScript_hit c live cx S fn ln o a hf] at h
    simp only [List.mem_cons] at h
    rcases h with h | h
    · cases h
    · have := (ExecuteScript_run_not_compile cx (some a) o _ h).1
      simp [Event.isCompile] at this
  | none =>
    have key : Event.CompileGlobalScriptToStencil fc fn' ln' ns s r ∈
        (compile_script S fn ln o live).events := by
      cases hv : (compile_script S fn ln o live).value with
      | none =>
        rw [ExecuteScript_miss_failed c live cx S fn ln o hf hv] at h
        simpa using h
      | some a =>
        rw [ExecuteScript_miss_compiled c live cx S fn ln o a hf hv] at h
        simp only [List.cons_append, List.mem_cons, List.mem_append] at h
        rcases h with h | h | h
        · cases h
        · exact h
        · have := (ExecuteScript_run_not_compile cx (some a) o _ h).1
          simp [Event.isCompile] at this
    exact ⟨rfl, compile_script_event_result S fn ln o live fc fn' ln' ns s r key⟩

theorem ExecuteScript_isCompileOf (c : JSCache) (live : List FrontendContext)
    (cx : JSContext) (S fn : String) (ln : Nat) (o : Outcomes) (S' : String) (e : Event)
    (he : e ∈ (ExecuteScript c live cx S fn ln o).events) (hc : e.isCompileOf S' = true) :
    c.find S = none ∧ S = S' := by
  cases e with
  | CompileGlobalScriptToStencil fc fn' ln' ns s r =>
    have := ExecuteScript_compile_event c live cx S fn ln o fc fn' ln' ns s r he
    simp [Event.isCompileOf] at hc
    exact ⟨this.1, by rw [← this.2.1, hc]⟩
  | _ => simp [Event.isCompileOf] at hc

/-! ## What operations do to the cache -/

theorem std_map_find_isSome_of_mem_keys (m : List (String × RefPtr)) (k : String)
    (h : k ∈ m.map Prod.fst) : ∃ a, std_map_find m k = some a := by
  cases hf : std_map_find m k with
  | none => exact absurd h ((std_map_find_eq_none_iff m k).mp hf)
  | some a => exact ⟨a, rfl⟩

theorem mem_keys_of_std_map_find (m : List (String × RefPtr)) (k : String) (a : RefPtr)
    (h : std_map_find m k = some a) : k ∈ m.map Prod.fst := by
  by_contra hk
  rw [(std_map_find_eq_none_iff m k).mpr hk] at h
  cases h

theorem mem_std_map_insert (m : List (String × RefPtr)) (key : String) (val : RefPtr)
    (e : String × RefPtr) (h : e ∈ std_map_insert m key val) : e = (key, val) ∨ e ∈ m := by
  cases hf : std_map_find m key with
  | some w => rw [std_map_insert_present m key w val hf] at h; exact Or.inr h
  | none =>
    rw [std_map_insert_absent m key val hf] at h
    exact (mem_std_map_place key val m e).mp h

theorem JSCache.find_of_std_map_find (c : JSCache) (k : String) (a : RefPtr)
    (h : std_map_find c._cache k = some a) : c.find k = a := by
  simp [JSCache.find, h]

theorem JSCache.std_map_find_of_find (c : JSCache) (k : String) (a : Stencil)
    (h : c.find k = some a) : std_map_find c._cache k = some (some a) := by
  unfold JSCache.find at h
  cases hf : std_map_find c._cache k with
  | none => rw [hf] at h; cases h
  | some w => rw [hf] at h; simp only at h; rw [h]

/-- A lookup that returns null means that the key is absent, when no null handle
is stored under the key. -/
theorem JSCache.not_mem_keys_of_find_none (c : JSCache) (k : String)
    (hk : (k, none) ∉ c._cache) (h : c.find k = none) : k ∉ c.keys := by
  apply (std_map_find_eq_none_iff c._cache k).mp
  cases hf : std_map_find c._cache k with
  | none => rfl
  | some w =>
    have hw : w = none := by
      have := c.find_of_std_map_find k w hf
      rw [← this, h]
    rw [hw] at hf
    exact absurd (std_map_find_mem _ _ _ hf) hk

theorem JSCache.find_insert_of_absent (c : JSCache) (k : String) (a : RefPtr)
    (h : std_map_find c._cache k = none) : (c.insert k a).find k = a := by
  simp [JSCache.find, JSCache.insert, std_map_insert_absent _ _ _ h,
    std_map_find_place_self _ _ _ h]

/-- A job stores no null handle: line 100 guards the insertion. -/
theorem ExecuteScript_no_null_under (c : JSCache) (k : String) (hk : (k, none) ∉ c._cache)
    (live : List FrontendContext) (cx : JSContext) (S fn : String) (ln : Nat) (o : Outcomes) :
    (k, none) ∉ (ExecuteScript c live cx S fn ln o).cache._cache := by
  rcases ExecuteScript_cache c live cx S fn ln o with h | ⟨a, _, h⟩
  · rw [h]; exact hk
  · rw [h]
    intro hmem
    rcases mem_std_map_insert c._cache S (some a) (k, none) hmem with heq | hin
    · simp at heq
    · exact hk hin

theorem ExecuteScript_UniqueKeys (c : JSCache) (hu : c.UniqueKeys)
    (live : List FrontendContext) (cx : JSContext) (S fn : String) (ln : Nat) (o : Outcomes) :
    (ExecuteScript c live cx S fn ln o).cache.UniqueKeys := by
  rcases ExecuteScript_cache c live cx S fn ln o with h | ⟨a, _, h⟩
  · rw [h]; exact hu
  · rw [h]; exact c.insert_UniqueKeys hu S (some a)

theorem ExecuteScript_keeps_present (c : JSCache) (k : String) (a : RefPtr)
    (h : std_map_find c._cache k = some a) (live : List FrontendContext) (cx : JSContext)
    (S fn : String) (ln : Nat) (o : Outcomes) :
    std_map_find (ExecuteScript c live cx S fn ln o).cache._cache k = some a := by
  rcases ExecuteScript_cache c live cx S fn ln o with h' | ⟨b, _, h'⟩
  · rw [h']; exact h
  · rw [h']; exact std_map_find_insert_of_present c._cache k a h S (some b)

theorem ExecuteScript_keeps_mem (c : JSCache) (e : String × RefPtr) (h : e ∈ c._cache)
    (live : List FrontendContext) (cx : JSContext) (S fn : String) (ln : Nat) (o : Outcomes) :
    e ∈ (ExecuteScript c live cx S fn ln o).cache._cache := by
  rcases ExecuteScript_cache c live cx S fn ln o with h' | ⟨b, _, h'⟩
  · rw [h']; exact h
  · rw [h']; exact mem_std_map_insert_of_mem c._cache S (some b) e h

theorem applyOp_keeps_present (s : RunState) (k : String) (a : RefPtr)
    (h : std_map_find s.cache._cache k = some a) (op : CacheOp) :
    std_map_find (applyOp s op).cache._cache k = some a := by
  cases op with
  | find key => exact h
  | insert key val => exact std_map_find_insert_of_present s.cache._cache k a h key val
  | ExecuteScript j =>
    exact ExecuteScript_keeps_present s.cache k a h s.live j.cx j.script j.filename
      j.linenumber j.outcomes

theorem applyOp_keeps_mem (s : RunState) (e : String × RefPtr) (h : e ∈ s.cache._cache)
    (op : CacheOp) : e ∈ (applyOp s op).cache._cache := by
  cases op with
  | find key => exact h
  | insert key val => exact mem_std_map_insert_of_mem s.cache._cache key val e h
  | ExecuteScript j =>
    exact ExecuteScript_keeps_mem s.cache e h s.live j.cx j.script j.filename
      j.linenumber j.outcomes

theorem applyOps_keeps_present (ops : List CacheOp) (s : RunState) (k : String) (a : RefPtr)
    (h : std_map_find s.cache._cache k = some a) :
    std_map_find (applyOps s ops).cache._cache k = some a := by
  induction ops generalizing s with
  | nil => exact h
  | cons op rest ih => exact ih (applyOp s op) (applyOp_keeps_present s k a h op)

theorem applyOps_keeps_mem (ops : List CacheOp) (s : RunState) (e : String × RefPtr)
    (h : e ∈ s.cache._cache) : e ∈ (applyOps s ops).cache._cache := by
  induction ops generalizing s with
  | nil => exact h
  | cons op rest ih => exact ih (applyOp s op) (applyOp_keeps_mem s e h op)

/-- Claim C3.  For a key that is present, after any finite sequence of `find`,
`insert` (of any key and handle) and `ExecuteScript` (of any script, with any
engine outcomes), `find` returns what it returned before; inserting the key
again, with any handle, leaves the cache as it is; and every element the cache
held is still in it. -/
theorem present_key_never_changes (s : RunState) (k : String) (hk : k ∈ s.cache.keys)
    (ops : List CacheOp) :
    (applyOps s ops).cache.find k = s.cache.find k ∧
    k ∈ (applyOps s ops).cache.keys ∧
    (∀ v, s.cache.insert k v = s.cache) ∧
    (∀ v, (applyOps s ops).cache.insert k v = (applyOps s ops).cache) ∧
    (∀ e ∈ s.cache._cache, e ∈ (applyOps s ops).cache._cache) := by
  obtain ⟨a, ha⟩ := std_map_find_isSome_of_mem_keys s.cache._cache k hk
  have ha' := applyOps_keeps_present ops s k a ha
  refine ⟨?_, ?_, ?_, ?_, ?_⟩
  · rw [JSCache.find_of_std_map_find _ k a ha', JSCache.find_of_std_map_find _ k a ha]
  · exact mem_keys_of_std_map_find _ k a ha'
  · intro v
    simp [JSCache.insert, std_map_insert_present _ k a v ha]
  · intro v
    simp [JSCache.insert, std_map_insert_present _ k a v ha']
  · intro e he
    exact applyOps_keeps_mem ops s e he

/-- The theorem `present_key_never_changes` at a cache that holds `js1`, followed
by an insertion of `js1` with another handle, a lookup, a job on `js3` and an
insertion of a null handle under `js1`. -/
theorem present_key_never_changes_witness :
    js1 ∈ (RunState.mk ⟨[(js1, some 1)]⟩ [] []).cache.keys ∧
      (applyOps (RunState.mk ⟨[(js1, some 1)]⟩ [] [])
        [CacheOp.insert js1 (some 9), CacheOp.find js3,
          CacheOp.ExecuteScript ⟨0, js3, "none", 3, Outcomes.allSucceed 5 2⟩,
          CacheOp.insert js1 none]).cache.find js1 =
        (RunState.mk ⟨[(js1, some 1)]⟩ [] []).cache.find js1 :=
  ⟨by decide,
    (present_key_never_changes (RunState.mk ⟨[(js1, some 1)]⟩ [] []) js1 (by decide)
      [CacheOp.insert js1 (some 9), CacheOp.find js3,
        CacheOp.ExecuteScript ⟨0, js3, "none", 3, Outcomes.allSucceed 5 2⟩,
        CacheOp.insert js1 none]).1⟩

/-! ## Failed compilation -/

theorem compile_script_value_none (script filename : String) (linenumber : Nat)
    (o : Outcomes) (live : List FrontendContext)
    (h : o.NewFrontendContext = none ∨ o.SourceText_init = false ∨
      o.CompileGlobalScriptToStencil = none) :
    (compile_script script filename linenumber o live).value = none := by
  rw [compile_script_value]
  rcases h with h | h | h <;> simp [h]

/-- Claim C5.  When the script is absent from the cache and the compile step
yields no artifact (no frontend context, source initialisation fails, or the
compiler returns null), the job calls neither `InstantiateGlobalStencil` nor
`JS_ExecuteScript`, and it leaves the cache as it was, so the script is still
absent. -/
theorem failed_compile_aborts (c : JSCache) (live : List FrontendContext) (cx : JSContext)
    (S fn : String) (ln : Nat) (o : Outcomes) (habs : S ∉ c.keys)
    (hfail : o.NewFrontendContext = none ∨ o.SourceText_init = false ∨
      o.CompileGlobalScriptToStencil = none) :
    (ExecuteScript c live cx S fn ln o).cache = c ∧
    S ∉ (ExecuteScript c live cx S fn ln o).cache.keys ∧
    (ExecuteScript c live cx S fn ln o).cache.find S = none ∧
    (∀ e ∈ (ExecuteScript c live cx S fn ln o).events,
      e.isInstantiate = false ∧ e.isExecute = false) := by
  have hf : c.find S = none := by
    simp [JSCache.find, (std_map_find_eq_none_iff c._cache S).mpr habs]
  have hv := compile_script_value_none S fn ln o live hfail
  rw [ExecuteScript_miss_failed c live cx S fn ln o hf hv]
  refine ⟨rfl, habs, hf, ?_⟩
  intro e he
  simp only [List.mem_cons] at he
  rcases he with rfl | he
  · simp [Event.isInstantiate, Event.isExecute]
  · exact compile_script_events_not_run S fn ln o live e he

/-- The theorem `failed_compile_aborts` at the empty cache and the script `js2`,
which the compiler rejects. -/
theorem failed_compile_aborts_witness :
    js2 ∉ JSCache.empty.keys ∧
      (ExecuteScript JSCache.empty [] 0 js2 "none" 2 (Outcomes.syntaxError 5)).cache =
        JSCache.empty :=
  ⟨by decide,
    (failed_compile_aborts JSCache.empty [] 0 js2 "none" 2 (Outcomes.syntaxError 5)
      (by decide) (Or.inr (Or.inr rfl))).1⟩

/-! ## Cache hits -/

/-- A job that misses with the line number `2 ^ 32 + 1` hands the compiler the
line number 1: `setFileAndLine` keeps the low 32 bits. -/
theorem compile_script_lineno_low_bits :
    Event.CompileGlobalScriptToStencil 5 "none" 1 true js1 (some 1) ∈
      (ExecuteScript JSCache.empty [] 0 js1 "none" 4294967297
        (Outcomes.allSucceed 5 1)).events := by
  decide

/-! ## What the caller learns -/

/-- Claim C7, as stated, fails: the job on `js2`, which the compiler rejects,
returns to its caller the very value that the job on `js1` returns after it has
executed the script. -/
theorem syntax_error_returns_like_success :
    (ExecuteScript JSCache.empty [] 0 js2 "none" 2 (Outcomes.syntaxError 5)).ret =
      (ExecuteScript JSCache.empty [] 0 js1 "none" 1 (Outcomes.allSucceed 5 1)).ret ∧
    Event.CompileGlobalScriptToStencil 5 "none" 2 true js2 none ∈
      (ExecuteScript JSCache.empty [] 0 js2 "none" 2 (Outcomes.syntaxError 5)).events ∧
    Event.JS_ExecuteScript 0 true ∈
      (ExecuteScript JSCache.empty [] 0 js1 "none" 1 (Outcomes.allSucceed 5 1)).events := by
  decide

/-- Claim C7, amended.  `ExecuteScript` returns nothing; the outcome of a job
shows in its events alone.  When the compiler rejects the script, the job writes
the line about a syntax error, destroys the frontend context and does nothing
more.  When the job holds an artifact, it calls `InstantiateGlobalStencil`; a
failure there is followed by `ReportAndClearException` and nothing else, success
by `JS_ExecuteScript`, whose failure is followed by `ReportAndClearException`. -/
theorem ExecuteScript_reports_in_events (c : JSCache) (live : List FrontendContext)
    (cx : JSContext) (S fn : String) (ln : Nat) (o : Outcomes) :
    (ExecuteScript c live cx S fn ln o).ret = () ∧
    (∀ fc, c.find S = none → o.NewFrontendContext = some fc → o.SourceText_init = true →
      o.CompileGlobalScriptToStencil = none →
      (ExecuteScript c live cx S fn ln o).events =
        [Event.cout "Compiling script\n", Event.NewFrontendContext (some fc),
          Event.SetNativeStackQuota fc (kCompileStackQuota o.sizeof_size_t),
          Event.SourceText_init fc S true,
          Event.CompileGlobalScriptToStencil fc fn (setFileAndLine_lineno ln) true S none,
          Event.cout "Error compiling script, presumably due to a syntax error.\n",
          Event.DestroyFrontendContext fc]) ∧
    (∀ a, (ExecuteScript_fetch c live S fn ln o).1 = some a →
      (ExecuteScript c live cx S fn ln o).events =
        (ExecuteScript_fetch c live S fn ln o).2.events ++
          Event.InstantiateGlobalStencil cx a o.InstantiateGlobalStencil ::
            (if o.InstantiateGlobalStencil = false then [Event.ReportAndClearException cx]
             else if o.JS_ExecuteScript = false then
               [Event.JS_ExecuteScript cx false, Event.ReportAndClearException cx]
             else [Event.JS_ExecuteScript cx true])) := by
  refine ⟨rfl, ?_, ?_⟩
  · intro fc hf hfc hini hcmp
    obtain ⟨sz, nfc, ini, cmp, ins, exe⟩ := o
    simp only at hfc hini hcmp
    subst hfc hini hcmp
    simp [ExecuteScript, ExecuteScript_fetch, hf, compile_script, frontend_context,
      ExecuteScript_run]
  · intro a ha
    simp only [ExecuteScript, ha, ExecuteScript_run_events]

/-! ## Sequential runs -/

theorem runJob_cache (s : RunState) (j : JobCall) :
    (runJob s j).cache = (j.result s).cache := rfl

theorem runJob_trace (s : RunState) (j : JobCall) :
    (runJob s j).trace = s.trace ++ (j.result s).events := rfl

theorem runJobs_append (s : RunState) (js ks : List JobCall) :
    runJobs s (js ++ ks) = runJobs (runJobs s js) ks := by
  simp [runJobs, List.foldl_append]

theorem runJobs_keeps_present (js : List JobCall) (s : RunState) (k : String) (a : RefPtr)
    (h : std_map_find s.cache._cache k = some a) :
    std_map_find (runJobs s js).cache._cache k = some a := by
  induction js generalizing s with
  | nil => exact h
  | cons j rest ih =>
    exact ih (runJob s j)
      (ExecuteScript_keeps_present s.cache k a h s.live j.cx j.script j.filename
        j.linenumber j.outcomes)

theorem runJobs_no_null_under (js : List JobCall) (s : RunState) (k : String)
    (hk : (k, none) ∉ s.cache._cache) : (k, none) ∉ (runJobs s js).cache._cache := by
  induction js generalizing s with
  | nil => exact hk
  | cons j rest ih =>
    exact ih (runJob s j)
      (ExecuteScript_no_null_under s.cache k hk s.live j.cx j.script j.filename j.linenumber
        j.outcomes)

theorem runJobs_UniqueKeys (js : List JobCall) (s : RunState) (hu : s.cache.UniqueKeys) :
    (runJobs s js).cache.UniqueKeys := by
  induction js generalizing s with
  | nil => exact hu
  | cons j rest ih =>
    exact ih (runJob s j)
      (ExecuteScript_UniqueKeys s.cache hu s.live j.cx j.script j.filename j.linenumber
        j.outcomes)

/-- A job run on a cache that holds an artifact under `S` does not call the
compiler on `S`. -/
theorem runJob_compileCount (s : RunState) (S : String) (a : Stencil)
    (h : s.cache.find S = some a) (j : JobCall) :
    compileCount S (runJob s j).trace = compileCount S s.trace := by
  rw [runJob_trace]
  unfold compileCount
  rw [List.countP_append]
  have : List.countP (Event.isCompileOf S) (j.result s).events = 0 := by
    rw [List.countP_eq_zero]
    intro e he hc
    have := ExecuteScript_isCompileOf s.cache s.live j.cx j.script j.filename j.linenumber
      j.outcomes S e he hc
    rw [this.2, h] at this
    cases this.1
  rw [this, Nat.add_zero]

theorem runJobs_compileCount (js : List JobCall) (s : RunState) (S : String) (a : Stencil)
    (h : s.cache.find S = some a) :
    compileCount S (runJobs s js).trace = compileCount S s.trace := by
  induction js generalizing s with
  | nil => rfl
  | cons j rest ih =>
    have h2 : (runJob s j).cache.find S = some a :=
      JSCache.find_of_std_map_find _ S (some a)
        (ExecuteScript_keeps_present s.cache S (some a)
          (JSCache.std_map_find_of_find s.cache S a h) s.live j.cx j.script j.filename
          j.linenumber j.outcomes)
    show compileCount S (runJobs (runJob s j) rest).trace = compileCount S s.trace
    rw [ih (runJob s j) h2, runJob_compileCount s S a h j]

/-- After a job on a script that was absent has compiled the script to `a`, the
cache holds `a` under the script. -/
theorem runJob_compiled_find (s : RunState) (j : JobCall) (a : Stencil)
    (habs : j.script ∉ s.cache.keys)
    (hv : (compile_script j.script j.filename j.linenumber j.outcomes s.live).value = some a) :
    (runJob s j).cache.find j.script = some a := by
  have hf := (std_map_find_eq_none_iff s.cache._cache j.script).mpr habs
  have hmiss : s.cache.find j.script = none := by simp [JSCache.find, hf]
  rw [runJob_cache]
  unfold JobCall.result
  rw [ExecuteScript_miss_compiled s.cache s.live j.cx j.script j.filename j.linenumber
    j.outcomes a hmiss hv]
  exact JSCache.find_insert_of_absent s.cache j.script (some a) hf

theorem runJobs_keeps_find (js : List JobCall) (s : RunState) (S : String) (a : Stencil)
    (h : s.cache.find S = some a) : (runJobs s js).cache.find S = some a :=
  JSCache.find_of_std_map_find _ S (some a)
    (runJobs_keeps_present js s S (some a) (JSCache.std_map_find_of_find s.cache S a h))

theorem hit_events (s : RunState) (j : JobCall) (a : Stencil)
    (h : s.cache.find j.script = some a) :
    (j.result s).events =
      Event.cout "Taking script from cache\n" :: ExecuteScript_run j.cx (some a) j.outcomes := by
  unfold JobCall.result
  rw [ExecuteScript_hit s.cache s.live j.cx j.script j.filename j.linenumber j.outcomes a h]

theorem hit_events_not_compile (s : RunState) (j : JobCall) (a : Stencil)
    (h : s.cache.find j.script = some a) :
    ∀ e ∈ (j.result s).events, e.isCompile = false := by
  rw [hit_events s j a h]
  intro e he
  simp only [List.mem_cons] at he
  rcases he with rfl | he
  · simp [Event.isCompile]
  · exact (ExecuteScript_run_not_compile j.cx (some a) j.outcomes e he).1

theorem hit_events_instantiate (s : RunState) (j : JobCall) (a : Stencil)
    (h : s.cache.find j.script = some a) :
    Event.InstantiateGlobalStencil j.cx a j.outcomes.InstantiateGlobalStencil ∈
      (j.result s).events := by
  rw [hit_events s j a h, ExecuteScript_run_events]
  simp

/-- Claim C4.  In a sequential run of jobs on one cache that holds no null
handle under the script `S` (jobs never store one), once a job has compiled `S`
to the artifact `a`, then after any further jobs the cache holds `a` under `S`;
a later job on the same script calls the compiler not at all and hands `a` to
`InstantiateGlobalStencil`; and the number of compiler calls on `S` in the whole
run stays what it was after the first job. -/
theorem hit_never_recompiles (s0 : RunState) (first : JobCall)
    (hnn : (first.script, none) ∉ s0.cache._cache)
    (fc : FrontendContext) (fn : String) (ln : Nat) (ns : Bool) (a : Stencil)
    (hcompiled : Event.CompileGlobalScriptToStencil fc fn ln ns first.script (some a) ∈
      (first.result s0).events)
    (mid : List JobCall) (later : JobCall) (hsame : later.script = first.script) :
    (runJobs (runJob s0 first) mid).cache.find first.script = some a ∧
    (∀ e ∈ (later.result (runJobs (runJob s0 first) mid)).events, e.isCompile = false) ∧
    Event.InstantiateGlobalStencil later.cx a later.outcomes.InstantiateGlobalStencil ∈
      (later.result (runJobs (runJob s0 first) mid)).events ∧
    compileCount first.script (runJobs (runJob s0 first) (mid ++ [later])).trace =
      compileCount first.script (runJob s0 first).trace := by
  have hev := ExecuteScript_compile_event s0.cache s0.live first.cx first.script
    first.filename first.linenumber first.outcomes fc fn ln ns first.script (some a) hcompiled
  have habs := JSCache.not_mem_keys_of_find_none s0.cache first.script hnn hev.1
  have h1 : (runJob s0 first).cache.find first.script = some a :=
    runJob_compiled_find s0 first a habs hev.2.2.2.2.symm
  have h2 := runJobs_keeps_find mid (runJob s0 first) first.script a h1
  have h2' : (runJobs (runJob s0 first) mid).cache.find later.script = some a := by
    rw [hsame]; exact h2
  exact ⟨h2, hit_events_not_compile _ later a h2', hit_events_instantiate _ later a h2',
    runJobs_compileCount (mid ++ [later]) (runJob s0 first) first.script a h1⟩

/-- The theorem `hit_never_recompiles` on the empty cache: `js1` is compiled to
the artifact 1, then `js2` is rejected and `js3` is compiled, and then a job on
`js1` with another location is run. -/
theorem hit_never_recompiles_witness :
    (js1, none) ∉ (RunState.mk JSCache.empty [] []).cache._cache ∧
      Event.CompileGlobalScriptToStencil 5 "none" 1 true js1 (some 1) ∈
        ((JobCall.mk 0 js1 "none" 1 (Outcomes.allSucceed 5 1)).result
          (RunState.mk JSCache.empty [] [])).events ∧
      compileCount js1
        (runJobs (runJob (RunState.mk JSCache.empty [] [])
            (JobCall.mk 0 js1 "none" 1 (Outcomes.allSucceed 5 1)))
          ([JobCall.mk 0 js2 "none" 2 (Outcomes.syntaxError 6),
              JobCall.mk 0 js3 "none" 3 (Outcomes.allSucceed 7 3)] ++
            [JobCall.mk 1 js1 "other.js" 40 (Outcomes.allSucceed 8 4)])).trace =
        compileCount js1
          (runJob (RunState.mk JSCache.empty [] [])
            (JobCall.mk 0 js1 "none" 1 (Outcomes.allSucceed 5 1))).trace :=
  ⟨by decide, by decide,
    (hit_never_recompiles (RunState.mk JSCache.empty [] [])
      (JobCall.mk 0 js1 "none" 1 (Outcomes.allSucceed 5 1)) (by decide) 5 "none" 1 true 1
      (by decide)
      [JobCall.mk 0 js2 "none" 2 (Outcomes.syntaxError 6),
        JobCall.mk 0 js3 "none" 3 (Outcomes.allSucceed 7 3)]
      (JobCall.mk 1 js1 "other.js" 40 (Outcomes.allSucceed 8 4)) rfl).2.2.2⟩

/-- Claim C6.  On a cache that holds no null handle under the script (jobs
never store one), when a job obtains the artifact `a` for its script (from the
cache, or after a miss from a successful compile) and the instantiation fails,
the job does not call `JS_ExecuteScript`, and the cache holds `a` under the
script after the job and after any further jobs.  A later job on the script
takes `a` from the cache, hands it to `InstantiateGlobalStencil`, and calls
`JS_ExecuteScript` when that succeeds. -/
theorem instantiate_failure_keeps_artifact (s0 : RunState) (j : JobCall) (a : Stencil)
    (hnn : (j.script, none) ∉ s0.cache._cache)
    (hobtained : s0.cache.find j.script = some a ∨
      (s0.cache.find j.script = none ∧ j.outcomes.NewFrontendContext ≠ none ∧
        j.outcomes.SourceText_init = true ∧
        j.outcomes.CompileGlobalScriptToStencil = some a))
    (hfail : j.outcomes.InstantiateGlobalStencil = false)
    (mid : List JobCall) (next : JobCall) (hsame : next.script = j.script) :
    Event.InstantiateGlobalStencil j.cx a false ∈ (j.result s0).events ∧
    (∀ e ∈ (j.result s0).events, e.isExecute = false) ∧
    (runJob s0 j).cache.find j.script = some a ∧
    (runJobs (runJob s0 j) mid).cache.find j.script = some a ∧
    (next.result (runJobs (runJob s0 j) mid)).events =
      Event.cout "Taking script from cache\n" ::
        ExecuteScript_run next.cx (some a) next.outcomes ∧
    Event.InstantiateGlobalStencil next.cx a next.outcomes.InstantiateGlobalStencil ∈
      (next.result (runJobs (runJob s0 j) mid)).events ∧
    (next.outcomes.InstantiateGlobalStencil = true →
      Event.JS_ExecuteScript next.cx next.outcomes.JS_ExecuteScript ∈
        (next.result (runJobs (runJob s0 j) mid)).events) := by
  have hrun : ExecuteScript_run j.cx (some a) j.outcomes =
      [Event.InstantiateGlobalStencil j.cx a false, Event.ReportAndClearException j.cx] := by
    rw [ExecuteScript_run_events, hfail]; simp
  have hfirst : Event.InstantiateGlobalStencil j.cx a false ∈ (j.result s0).events ∧
      (∀ e ∈ (j.result s0).events, e.isExecute = false) ∧
      (runJob s0 j).cache.find j.script = some a := by
    rcases hobtained with hhit | ⟨hmiss, hfc, hini, hcmp⟩
    · refine ⟨?_, ?_, ?_⟩
      · rw [hit_events s0 j a hhit, hrun]; simp
      · rw [hit_events s0 j a hhit, hrun]
        simp [Event.isExecute]
      · rw [runJob_cache]
        unfold JobCall.result
        rw [ExecuteScript_hit s0.cache s0.live j.cx j.script j.filename j.linenumber
          j.outcomes a hhit]
        exact hhit
    · have habs := JSCache.not_mem_keys_of_find_none s0.cache j.script hnn hmiss
      have hv : (compile_script j.script j.filename j.linenumber j.outcomes s0.live).value =
          some a := by
        rw [compile_script_value]; simp [hfc, hini, hcmp]
      have hevents : (j.result s0).events =
          Event.cout "Compiling script\n" ::
            (compile_script j.script j.filename j.linenumber j.outcomes s0.live).events ++
            ExecuteScript_run j.cx (some a) j.outcomes := by
        unfold JobCall.result
        rw [ExecuteScript_miss_compiled s0.cache s0.live j.cx j.script j.filename j.linenumber
          j.outcomes a hmiss hv]
      refine ⟨?_, ?_, runJob_compiled_find s0 j a habs hv⟩
      · rw [hevents, hrun]; simp
      · rw [hevents, hrun]
        intro e he
        simp only [List.cons_append, List.mem_cons, List.mem_append, List.mem_singleton,
          List.not_mem_nil, or_false] at he
        rcases he with rfl | he | rfl | rfl
        · simp [Event.isExecute]
        · exact (compile_script_events_not_run _ _ _ _ _ e he).2
        · simp [Event.isExecute]
        · simp [Event.isExecute]
  have h2 := runJobs_keeps_find mid (runJob s0 j) j.script a hfirst.2.2
  have h2' : (runJobs (runJob s0 j) mid).cache.find next.script = some a := by
    rw [hsame]; exact h2
  refine ⟨hfirst.1, hfirst.2.1, hfirst.2.2, h2, hit_events _ next a h2',
    hit_events_instantiate _ next a h2', ?_⟩
  intro hok
  rw [hit_events _ next a h2', ExecuteScript_run_events, hok]
  cases hx : next.outcomes.JS_ExecuteScript <;> simp

/-- The theorem `instantiate_failure_keeps_artifact` on the empty cache: `js1` is
compiled to the artifact 1 and fails to instantiate; after a job on `js3`, a job
on `js1` takes the artifact 1 from the cache and executes it. -/
theorem instantiate_failure_keeps_artifact_witness :
    (js1, none) ∉ (RunState.mk JSCache.empty [] []).cache._cache ∧
      (Outcomes.instantiateFails 5 1).InstantiateGlobalStencil = false ∧
      Event.JS_ExecuteScript 1 (Outcomes.allSucceed 8 4).JS_ExecuteScript ∈
        ((JobCall.mk 1 js1 "none" 1 (Outcomes.allSucceed 8 4)).result
          (runJobs (runJob (RunState.mk JSCache.empty [] [])
              (JobCall.mk 0 js1 "none" 1 (Outcomes.instantiateFails 5 1)))
            [JobCall.mk 0 js3 "none" 3 (Outcomes.allSucceed 7 3)])).events :=
  ⟨by decide, rfl,
    (instantiate_failure_keeps_artifact (RunState.mk JSCache.empty [] [])
      (JobCall.mk 0 js1 "none" 1 (Outcomes.instantiateFails 5 1)) 1 (by decide)
      (Or.inr ⟨by decide, by decide, rfl, rfl⟩) rfl
      [JobCall.mk 0 js3 "none" 3 (Outcomes.allSucceed 7 3)]
      (JobCall.mk 1 js1 "none" 1 (Outcomes.allSucceed 8 4)) rfl).2.2.2.2.2.2 rfl⟩

/-! ## The examples of the program -/

/-- Two rounds of `ExecuteExamples` on an empty cache, as one thread of the
program runs them: `js1` and `js3` are compiled in the first round and taken
from the cache in the second, `js2` is rejected by the compiler in both, and no
frontend context is left alive. -/
theorem ExecuteExamples_twice :
    (ExecuteExamples
      (ExecuteExamples ⟨JSCache.empty, [], []⟩ 0
        ⟨true, true, Outcomes.allSucceed 5 1, Outcomes.syntaxError 6, Outcomes.allSucceed 7 3⟩)
      0 ⟨true, true, Outcomes.allSucceed 8 4, Outcomes.syntaxError 9,
        Outcomes.allSucceed 10 6⟩).cache = ⟨[(js1, some 1), (js3, some 3)]⟩ ∧
    (ExecuteExamples
      (ExecuteExamples ⟨JSCache.empty, [], []⟩ 0
        ⟨true, true, Outcomes.allSucceed 5 1, Outcomes.syntaxError 6, Outcomes.allSucceed 7 3⟩)
      0 ⟨true, true, Outcomes.allSucceed 8 4, Outcomes.syntaxError 9,
        Outcomes.allSucceed 10 6⟩).live = [] ∧
    (ExecuteExamples
      (ExecuteExamples ⟨JSCache.empty, [], []⟩ 0
        ⟨true, true, Outcomes.allSucceed 5 1, Outcomes.syntaxError 6, Outcomes.allSucceed 7 3⟩)
      0 ⟨true, true, Outcomes.allSucceed 8 4, Outcomes.syntaxError 9,
        Outcomes.allSucceed 10 6⟩).trace.countP Event.isCompile = 4 := by
  decide

/-! ## Threads: one step -/

theorem Thread.step_call (c : JSCache) (t : Thread) : (t.step c).2.call = t.call := by
  obtain ⟨j, pc, live, events⟩ := t
  cases pc with
  | lookup => cases hf : c.find j.script <;> simp [Thread.step, hf]
  | compiling =>
    cases hv : (compile_script j.script j.filename j.linenumber j.outcomes live).value <;>
      simp [Thread.step, hv]
  | inserting a => simp [Thread.step]
  | instantiating st =>
    cases st with
    | none => simp [Thread.step]
    | some a => cases hi : j.outcomes.InstantiateGlobalStencil <;> simp [Thread.step, hi]
  | executing => cases hx : j.outcomes.JS_ExecuteScript <;> simp [Thread.step, hx]
  | returned => simp [Thread.step]

theorem Thread.step_rank (c : JSCache) (t : Thread) :
    min 5 (t.pc.rank + 1) ≤ (t.step c).2.pc.rank := by
  obtain ⟨j, pc, live, events⟩ := t
  cases pc with
  | lookup => cases hf : c.find j.script <;> simp [Thread.step, hf, Pc.rank]
  | compiling =>
    cases hv : (compile_script j.script j.filename j.linenumber j.outcomes live).value <;>
      simp [Thread.step, hv, Pc.rank]
  | inserting a => simp [Thread.step, Pc.rank]
  | instantiating st =>
    cases st with
    | none => simp [Thread.step, Pc.rank]
    | some a =>
      cases hi : j.outcomes.InstantiateGlobalStencil <;> simp [Thread.step, hi, Pc.rank]
  | executing => cases hx : j.outcomes.JS_ExecuteScript <;> simp [Thread.step, hx, Pc.rank]
  | returned => simp [Thread.step, Pc.rank]

theorem Thread.step_events (c : JSCache) (t : Thread) :
    ∃ more, (t.step c).2.events = t.events ++ more := by
  obtain ⟨j, pc, live, events⟩ := t
  cases pc with
  | lookup =>
    cases hf : c.find j.script
    · exact ⟨[Event.cout "Compiling script\n"], by simp [Thread.step, hf]⟩
    · exact ⟨[Event.cout "Taking script from cache\n"], by simp [Thread.step, hf]⟩
  | compiling =>
    refine ⟨(compile_script j.script j.filename j.linenumber j.outcomes live).events, ?_⟩
    cases hv : (compile_script j.script j.filename j.linenumber j.outcomes live).value <;>
      simp [Thread.step, hv]
  | inserting a => exact ⟨[], by simp [Thread.step]⟩
  | instantiating st =>
    cases st with
    | none => exact ⟨[], by simp [Thread.step]⟩
    | some a =>
      cases hi : j.outcomes.InstantiateGlobalStencil
      · exact ⟨[Event.InstantiateGlobalStencil j.cx a false,
          Event.ReportAndClearException j.cx], by simp [Thread.step, hi]⟩
      · exact ⟨[Event.InstantiateGlobalStencil j.cx a true], by simp [Thread.step, hi]⟩
  | executing =>
    cases hx : j.outcomes.JS_ExecuteScript
    · exact ⟨[Event.JS_ExecuteScript j.cx false, Event.ReportAndClearException j.cx],
        by simp [Thread.step, hx]⟩
    · exact ⟨[Event.JS_ExecuteScript j.cx true], by simp [Thread.step, hx]⟩
  | returned => exact ⟨[], by simp [Thread.step]⟩

theorem Thread.step_events_mono (c : JSCache) (t : Thread) (e : Event) (h : e ∈ t.events) :
    e ∈ (t.step c).2.events := by
  obtain ⟨more, hm⟩ := Thread.step_events c t
  rw [hm]
  exact List.mem_append_left _ h

/-- Five steps of a thread, with no other thread in between, are one call of
`Job::ExecuteScript`: the same cache, the same events, the same live contexts. -/
theorem Thread.stepsAlone_eq_ExecuteScript (c : JSCache) (j : JobCall)
    (live : List FrontendContext) :
    Thread.stepsAlone c (Thread.start j live) 5 =
      ((ExecuteScript c live j.cx j.script j.filename j.linenumber j.outcomes).cache,
        ⟨j, .returned, (ExecuteScript c live j.cx j.script j.filename j.linenumber
            j.outcomes).live,
          (ExecuteScript c live j.cx j.script j.filename j.linenumber j.outcomes).events⟩) := by
  cases hf : c.find j.script with
  | some a =>
    rw [ExecuteScript_hit c live j.cx j.script j.filename j.linenumber j.outcomes a hf]
    cases hi : j.outcomes.InstantiateGlobalStencil <;>
      cases hx : j.outcomes.JS_ExecuteScript <;>
      simp [Thread.stepsAlone, Thread.step, Thread.start, hf, hi, hx, ExecuteScript_run]
  | none =>
    cases hv : (compile_script j.script j.filename j.linenumber j.outcomes live).value with
    | none =>
      rw [ExecuteScript_miss_failed c live j.cx j.script j.filename j.linenumber j.outcomes
        hf hv]
      simp [Thread.stepsAlone, Thread.step, Thread.start, hf, hv, compile_script_live]
    | some a =>
      rw [ExecuteScript_miss_compiled c live j.cx j.script j.filename j.linenumber j.outcomes
        a hf hv]
      cases hi : j.outcomes.InstantiateGlobalStencil <;>
        cases hx : j.outcomes.JS_ExecuteScript <;>
        simp [Thread.stepsAlone, Thread.step, Thread.start, hf, hv, hi, hx, ExecuteScript_run,
          compile_script_live]

theorem Thread.step_cache (c : JSCache) (t : Thread) :
    (t.step c).1 = c ∨
      ∃ a, t.pc = .inserting a ∧ (t.step c).1 = c.insert t.call.script (some a) := by
  obtain ⟨j, pc, live, events⟩ := t
  cases pc with
  | lookup => cases hf : c.find j.script <;> simp [Thread.step, hf]
  | compiling =>
    cases hv : (compile_script j.script j.filename j.linenumber j.outcomes live).value <;>
      simp [Thread.step, hv]
  | inserting a => exact Or.inr ⟨a, rfl, by simp [Thread.step]⟩
  | instantiating st =>
    cases st with
    | none => simp [Thread.step]
    | some a => cases hi : j.outcomes.InstantiateGlobalStencil <;> simp [Thread.step, hi]
  | executing => cases hx : j.outcomes.JS_ExecuteScript <;> simp [Thread.step, hx]
  | returned => simp [Thread.step]

theorem compile_script_of_Compiles (j : JobCall) (h : j.Compiles) (live : List FrontendContext) :
    ∃ fc a, compile_script j.script j.filename j.linenumber j.outcomes live =
      ⟨some a, live,
        [Event.NewFrontendContext (some fc),
          Event.SetNativeStackQuota fc (kCompileStackQuota j.outcomes.sizeof_size_t),
          Event.SourceText_init fc j.script true,
          Event.CompileGlobalScriptToStencil fc j.filename
            (setFileAndLine_lineno j.linenumber) true j.script (some a),
          Event.DestroyFrontendContext fc]⟩ := by
  obtain ⟨cx, script, fn, ln, ⟨sz, nfc, ini, cmp, ins, exe⟩⟩ := j
  obtain ⟨h1, h2, h3⟩ := h
  simp only at h1 h2 h3
  cases nfc with
  | none => exact absurd rfl h1
  | some fc =>
    cases cmp with
    | none => exact absurd rfl h3
    | some a =>
      subst h2
      exact ⟨fc, a, by simp [compile_script, frontend_context]⟩

theorem JSCache.insert_ne_nil (c : JSCache) (k : String) (v : RefPtr) :
    (c.insert k v)._cache ≠ [] := by
  intro h
  cases hf : std_map_find c._cache k with
  | none =>
    have hm : (k, v) ∈ (c.insert k v)._cache := by
      simp [JSCache.insert, std_map_insert_absent _ _ _ hf, mem_std_map_place]
    rw [h] at hm
    cases hm
  | some w =>
    have hm : (k, w) ∈ (c.insert k v)._cache :=
      mem_std_map_insert_of_mem c._cache k v (k, w) (std_map_find_mem _ _ _ hf)
    rw [h] at hm
    cases hm

/-! ## Threads: what every interleaving keeps -/

theorem Shared.step_of_some (s : Shared) (i : Nat) (t : Thread) (h : s.threads[i]? = some t) :
    s.step i = ⟨(t.step s.cache).1, s.threads.set i (t.step s.cache).2⟩ := by
  simp [Shared.step, h]

theorem Shared.step_of_none (s : Shared) (i : Nat) (h : s.threads[i]? = none) :
    s.step i = s := by
  simp [Shared.step, h]

theorem Shared.Compiled_set (s : Shared) (c' : JSCache) (i : Nat) (t t' : Thread)
    (hi : s.threads[i]? = some t) (hsub : ∀ e ∈ t.events, e ∈ t'.events) (S : String)
    (a : Stencil) (h : s.Compiled S a) :
    (Shared.mk c' (s.threads.set i t')).Compiled S a := by
  obtain ⟨w, hw, fc, fn, ln, he⟩ := h
  obtain ⟨j, hj⟩ := List.getElem?_of_mem hw
  by_cases hji : i = j
  · subst hji
    rw [hi] at hj
    cases hj
    have hlt : i < s.threads.length := (List.getElem?_eq_some.mp hi).1
    exact ⟨t', List.mem_set _ _ hlt _, fc, fn, ln, hsub _ he⟩
  · have hset : (s.threads.set i t')[j]? = some w := by
      rw [List.getElem?_set_ne hji]; exact hj
    exact ⟨w, List.getElem?_mem hset, fc, fn, ln, he⟩

theorem Thread.Inv_mono (S : String) (s s' : Shared) (t : Thread)
    (hc : s.cache._cache ≠ [] → s'.cache._cache ≠ [])
    (hC : ∀ a, s.Compiled S a → s'.Compiled S a) (h : t.Inv S s) : t.Inv S s' := by
  obtain ⟨j, pc, live, events⟩ := t
  obtain ⟨h1, h2, h3, h4⟩ := h
  refine ⟨h1, h2, h3, ?_⟩
  cases pc with
  | lookup => exact h4
  | compiling => exact h4
  | inserting a => exact h4
  | instantiating st =>
    obtain ⟨hne, a, ha, hca⟩ := h4
    exact ⟨hc hne, a, ha, hC a hca⟩
  | executing =>
    obtain ⟨hne, a, hca, hev⟩ := h4
    exact ⟨hc hne, a, hC a hca, hev⟩
  | returned =>
    obtain ⟨hne, a, r, hca, hev⟩ := h4
    exact ⟨hc hne, a, r, hC a hca, hev⟩

theorem JSCache.find_singleton (S : String) (a : RefPtr) (c : JSCache)
    (h : c._cache = [(S, a)]) : c.find S = a := by
  simp [JSCache.find, h, std_map_find]

theorem JSCache.find_nil (S : String) (c : JSCache) (h : c._cache = []) : c.find S = none := by
  simp [JSCache.find, h, std_map_find]

theorem Thread.Inv_after_step (S : String) (s : Shared) (i : Nat) (t : Thread)
    (hi : s.threads[i]? = some t)
    (hcache : s.cache._cache = [] ∨ ∃ a, s.cache._cache = [(S, some a)] ∧ s.Compiled S a)
    (h : t.Inv S s) :
    (t.step s.cache).2.Inv S ⟨(t.step s.cache).1, s.threads.set i (t.step s.cache).2⟩ := by
  have hlt : i < s.threads.length := (List.getElem?_eq_some.mp hi).1
  have hown : (t.step s.cache).2 ∈ s.threads.set i (t.step s.cache).2 :=
    List.mem_set _ _ hlt _
  have hC : ∀ a, s.Compiled S a →
      (Shared.mk (t.step s.cache).1 (s.threads.set i (t.step s.cache).2)).Compiled S a :=
    fun a ha => Shared.Compiled_set s _ i t _ hi (Thread.step_events_mono s.cache t) S a ha
  obtain ⟨j, pc, live, events⟩ := t
  obtain ⟨h1, h2, h3, h4⟩ := h
  simp only at h1 h2 h3
  cases pc with
  | lookup =>
    simp only at h4
    cases hf : s.cache.find j.script with
    | none =>
      have hstep : Thread.step s.cache ⟨j, .lookup, live, events⟩ =
          (s.cache, ⟨j, .compiling, live, events ++ [Event.cout "Compiling script\n"]⟩) := by
        simp [Thread.step, hf]
      simp only [hstep]
      refine ⟨h1, h2, ?_, ?_⟩
      · simp [List.countP_append, Event.isCompile, h4]
      · simp [List.countP_append, Event.isCompile, h4]
    | some st =>
      have hstep : Thread.step s.cache ⟨j, .lookup, live, events⟩ =
          (s.cache, ⟨j, .instantiating (some st), live,
            events ++ [Event.cout "Taking script from cache\n"]⟩) := by
        simp [Thread.step, hf]
      simp only [hstep] at hC ⊢
      refine ⟨h1, h2, ?_, ?_⟩
      · simp [List.countP_append, Event.isCompile, h4]
      · rcases hcache with hnil | ⟨a, ha, hca⟩
        · rw [h1, JSCache.find_nil S s.cache hnil] at hf
          cases hf
        · rw [h1, JSCache.find_singleton S (some a) s.cache ha] at hf
          simp only [Option.some.injEq] at hf
          subst hf
          exact ⟨by rw [ha]; simp, a, rfl, hC a hca⟩
  | compiling =>
    simp only at h4
    obtain ⟨fc, a, hcs⟩ := compile_script_of_Compiles j h2 live
    have hstep : Thread.step s.cache ⟨j, .compiling, live, events⟩ =
        (s.cache, ⟨j, .inserting a, live, events ++
          [Event.NewFrontendContext (some fc),
            Event.SetNativeStackQuota fc (kCompileStackQuota j.outcomes.sizeof_size_t),
            Event.SourceText_init fc j.script true,
            Event.CompileGlobalScriptToStencil fc j.filename
              (setFileAndLine_lineno j.linenumber) true j.script
              (some a),
            Event.DestroyFrontendContext fc]⟩) := by
      simp [Thread.step, hcs]
    simp only [hstep]
    refine ⟨h1, h2, ?_, ?_⟩
    · simp [List.countP_append, Event.isCompile, h4, List.countP_cons]
    · exact ⟨fc, j.filename, setFileAndLine_lineno j.linenumber, by simp [h1]⟩
  | inserting a =>
    obtain ⟨fc, fn, ln, hev⟩ := h4
    have hstep : Thread.step s.cache ⟨j, .inserting a, live, events⟩ =
        (s.cache.insert j.script (some a), ⟨j, .instantiating (some a), live, events⟩) := by
      simp [Thread.step]
    simp only [hstep] at hown ⊢
    refine ⟨h1, h2, h3, ?_, a, rfl, ?_⟩
    · exact JSCache.insert_ne_nil s.cache j.script (some a)
    · exact ⟨_, hown, fc, fn, ln, hev⟩
  | instantiating st =>
    obtain ⟨hne, a, ha, hca⟩ := h4
    subst ha
    cases hins : j.outcomes.InstantiateGlobalStencil with
    | false =>
      have hstep : Thread.step s.cache ⟨j, .instantiating (some a), live, events⟩ =
          (s.cache, ⟨j, .returned, live, events ++
            [Event.InstantiateGlobalStencil j.cx a false,
              Event.ReportAndClearException j.cx]⟩) := by
        simp [Thread.step, hins]
      simp only [hstep] at hC ⊢
      refine ⟨h1, h2, ?_, hne, a, false, hC a hca, ?_⟩
      · simpa [List.countP_append, Event.isCompile, List.countP_cons] using h3
      · simp
    | true =>
      have hstep : Thread.step s.cache ⟨j, .instantiating (some a), live, events⟩ =
          (s.cache, ⟨j, .executing, live, events ++
            [Event.InstantiateGlobalStencil j.cx a true]⟩) := by
        simp [Thread.step, hins]
      simp only [hstep] at hC ⊢
      refine ⟨h1, h2, ?_, hne, a, hC a hca, ?_⟩
      · simpa [List.countP_append, Event.isCompile, List.countP_cons] using h3
      · simp
  | executing =>
    obtain ⟨hne, a, hca, hev⟩ := h4
    cases hx : j.outcomes.JS_ExecuteScript with
    | false =>
      have hstep : Thread.step s.cache ⟨j, .executing, live, events⟩ =
          (s.cache, ⟨j, .returned, live, events ++
            [Event.JS_ExecuteScript j.cx false, Event.ReportAndClearException j.cx]⟩) := by
        simp [Thread.step, hx]
      simp only [hstep] at hC ⊢
      refine ⟨h1, h2, ?_, hne, a, true, hC a hca, ?_⟩
      · simpa [List.countP_append, Event.isCompile, List.countP_cons] using h3
      · exact List.mem_append_left _ hev
    | true =>
      have hstep : Thread.step s.cache ⟨j, .executing, live, events⟩ =
          (s.cache, ⟨j, .returned, live, events ++ [Event.JS_ExecuteScript j.cx true]⟩) := by
        simp [Thread.step, hx]
      simp only [hstep] at hC ⊢
      refine ⟨h1, h2, ?_, hne, a, true, hC a hca, ?_⟩
      · simpa [List.countP_append, Event.isCompile, List.countP_cons] using h3
      · exact List.mem_append_left _ hev
  | returned =>
    obtain ⟨hne, a, r, hca, hev⟩ := h4
    have hstep : Thread.step s.cache ⟨j, .returned, live, events⟩ =
        (s.cache, ⟨j, .returned, live, events⟩) := by
      simp [Thread.step]
    simp only [hstep] at hC ⊢
    exact ⟨h1, h2, h3, hne, a, r, hC a hca, hev⟩

theorem Shared.Inv_step (S : String) (s : Shared) (i : Nat) (h : s.Inv S) :
    (s.step i).Inv S := by
  cases hi : s.threads[i]? with
  | none => rw [Shared.step_of_none s i hi]; exact h
  | some t =>
    rw [Shared.step_of_some s i t hi]
    obtain ⟨hcache, hthreads⟩ := h
    have ht : t.Inv S s := hthreads t (List.getElem?_mem hi)
    have hlt : i < s.threads.length := (List.getElem?_eq_some.mp hi).1
    have hown : (t.step s.cache).2 ∈ s.threads.set i (t.step s.cache).2 :=
      List.mem_set _ _ hlt _
    have hC : ∀ a, s.Compiled S a →
        (Shared.mk (t.step s.cache).1 (s.threads.set i (t.step s.cache).2)).Compiled S a :=
      fun a ha => Shared.Compiled_set s _ i t _ hi (Thread.step_events_mono s.cache t) S a ha
    have hne : s.cache._cache ≠ [] → (t.step s.cache).1._cache ≠ [] := by
      intro hn
      rcases Thread.step_cache s.cache t with hc | ⟨a, _, hc⟩
      · rw [hc]; exact hn
      · rw [hc]; exact JSCache.insert_ne_nil _ _ _
    refine ⟨?_, ?_⟩
    · rcases Thread.step_cache s.cache t with hc | ⟨a, hpc, hc⟩
      · rcases hcache with hnil | ⟨b, hb, hcb⟩
        · left
          show (t.step s.cache).1._cache = []
          rw [hc]; exact hnil
        · right
          refine ⟨b, ?_, hC b hcb⟩
          show (t.step s.cache).1._cache = [(S, some b)]
          rw [hc]; exact hb
      · right
        have hscript : t.call.script = S := ht.1
        rcases hcache with hnil | ⟨b, hb, hcb⟩
        · refine ⟨a, ?_, ?_⟩
          · show (t.step s.cache).1._cache = [(S, some a)]
            rw [hc, hscript]
            simp [JSCache.insert, std_map_insert, hnil, std_map_find, std_map_place]
          · have hinv := ht.2.2.2
            rw [hpc] at hinv
            obtain ⟨fc, fn, ln, hev⟩ := hinv
            exact ⟨_, hown, fc, fn, ln, Thread.step_events_mono s.cache t _ hev⟩
        · refine ⟨b, ?_, hC b hcb⟩
          show (t.step s.cache).1._cache = [(S, some b)]
          rw [hc, hscript]
          simp [JSCache.insert, std_map_insert, hb, std_map_find]
    · intro u hu
      rcases List.mem_or_eq_of_mem_set hu with hold | rfl
      · exact Thread.Inv_mono S s _ u hne hC (hthreads u hold)
      · exact Thread.Inv_after_step S s i t hi hcache ht

/-- Under any schedule, an element of the cache stays: no step of any thread
removes or replaces it. -/
theorem Shared.run_keeps_present (schedule : List Nat) (s : Shared) (k : String) (a : RefPtr)
    (h : std_map_find s.cache._cache k = some a) :
    std_map_find (s.run schedule).cache._cache k = some a := by
  induction schedule generalizing s with
  | nil => exact h
  | cons i rest ih =>
    apply ih (s.step i)
    cases hi : s.threads[i]? with
    | none => rw [Shared.step_of_none s i hi]; exact h
    | some t =>
      rw [Shared.step_of_some s i t hi]
      rcases Thread.step_cache s.cache t with hc | ⟨b, _, hc⟩
      · show std_map_find (t.step s.cache).1._cache k = some a
        rw [hc]; exact h
      · show std_map_find (t.step s.cache).1._cache k = some a
        rw [hc]
        exact std_map_find_insert_of_present s.cache._cache k a h t.call.script (some b)

theorem Shared.Inv_run (S : String) (schedule : List Nat) (s : Shared) (h : s.Inv S) :
    (s.run schedule).Inv S := by
  induction schedule generalizing s with
  | nil => exact h
  | cons i rest ih => exact ih (s.step i) (Shared.Inv_step S s i h)

theorem Shared.Inv_start (S : String) (calls : List JobCall) (hS : ∀ j ∈ calls, j.script = S)
    (hvalid : ∀ j ∈ calls, j.Compiles) : (Shared.start calls).Inv S := by
  refine ⟨Or.inl rfl, ?_⟩
  intro t ht
  simp only [Shared.start, List.mem_map] at ht
  obtain ⟨j, hj, rfl⟩ := ht
  exact ⟨hS j hj, hvalid j hj, by simp [Thread.start], by simp [Thread.start]⟩

/-! ## Threads: the calls stay, and every thread returns -/

theorem Shared.step_getElem (s : Shared) (i j : Nat) :
    (s.step i).threads[j]? =
      if i = j then (s.threads[j]?).map (fun t => (t.step s.cache).2) else s.threads[j]? := by
  cases hi : s.threads[i]? with
  | none =>
    rw [Shared.step_of_none s i hi]
    by_cases hij : i = j
    · subst hij; simp [hi]
    · simp [hij]
  | some t =>
    rw [Shared.step_of_some s i t hi]
    by_cases hij : i = j
    · subst hij
      have hlt : i < s.threads.length := (List.getElem?_eq_some.mp hi).1
      simp [hi, hlt]
    · simp [hij, List.getElem?_set_ne hij]

theorem Shared.run_calls (schedule : List Nat) (s : Shared) :
    (s.run schedule).threads.map Thread.call = s.threads.map Thread.call := by
  induction schedule generalizing s with
  | nil => rfl
  | cons i rest ih =>
    show ((s.step i).run rest).threads.map Thread.call = s.threads.map Thread.call
    rw [ih (s.step i)]
    apply List.ext_getElem?
    intro n
    rw [List.getElem?_map, List.getElem?_map, Shared.step_getElem]
    by_cases hin : i = n
    · subst hin
      cases hi : s.threads[i]? with
      | none => simp
      | some t => simp [Thread.step_call]
    · simp [hin]

theorem Shared.run_rank (schedule : List Nat) (s : Shared) (j : Nat) (t : Thread)
    (h : s.threads[j]? = some t) :
    ∃ t', (s.run schedule).threads[j]? = some t' ∧
      min 5 (t.pc.rank + schedule.count j) ≤ t'.pc.rank := by
  induction schedule generalizing s t with
  | nil => exact ⟨t, h, by simp⟩
  | cons i rest ih =>
    by_cases hij : i = j
    · subst hij
      have h1 : (s.step i).threads[i]? = some (t.step s.cache).2 := by
        rw [Shared.step_getElem]; simp [h]
      obtain ⟨t', ht', hr⟩ := ih (s.step i) (t.step s.cache).2 h1
      refine ⟨t', ht', ?_⟩
      have hs := Thread.step_rank s.cache t
      simp only [List.count_cons_self]
      omega
    · have h1 : (s.step i).threads[j]? = some t := by
        rw [Shared.step_getElem]; simp [hij, h]
      obtain ⟨t', ht', hr⟩ := ih (s.step i) t h1
      refine ⟨t', ht', ?_⟩
      rw [List.count_cons_of_ne (fun e => hij e.symm)]
      exact hr

theorem Pc.eq_returned_of_rank (pc : Pc) (h : 5 ≤ pc.rank) : pc = .returned := by
  cases pc <;> simp [Pc.rank] at h ⊢

theorem Shared.start_calls (calls : List JobCall) :
    (Shared.start calls).threads.map Thread.call = calls := by
  induction calls with
  | nil => rfl
  | cons j rest ih =>
    simp only [Shared.start, List.map_cons, Thread.start, List.cons.injEq, true_and] at ih ⊢
    exact ih

theorem Shared.compilerCalls_le (s : Shared)
    (h : ∀ t ∈ s.threads, t.events.countP Event.isCompile ≤ 1) :
    s.compilerCalls ≤ s.threads.length := by
  unfold Shared.compilerCalls
  have := List.sum_le_card_nsmul (s.threads.map (fun t => t.events.countP Event.isCompile)) 1
    (by
      intro x hx
      obtain ⟨t, ht, rfl⟩ := List.mem_map.mp hx
      exact h t ht)
  simpa using this

theorem Shared.compilerCalls_pos (s : Shared) (S : String) (a : Stencil)
    (h : s.Compiled S a) : 1 ≤ s.compilerCalls := by
  obtain ⟨t, ht, fc, fn, ln, hev⟩ := h
  have h1 : 1 ≤ t.events.countP Event.isCompile := by
    have : 0 < t.events.countP Event.isCompile :=
      List.countP_pos_iff.mpr ⟨_, hev, by simp [Event.isCompile]⟩
    omega
  have h2 : t.events.countP Event.isCompile ≤ s.compilerCalls := by
    unfold Shared.compilerCalls
    exact List.single_le_sum (fun _ _ => Nat.zero_le _) _
      (List.mem_map.mpr ⟨t, ht, rfl⟩)
  omega

/-- Claim C8.  Let one thread per call run `Job::ExecuteScript` on the same
script `S`, which compiles, from the empty cache, with `find` and `insert`
atomic, under any schedule of the threads' steps.  The threads keep their calls.
When the schedule gives every thread five steps, every thread returns.  And
when every thread has returned: each has handed to `InstantiateGlobalStencil` an
artifact that some thread compiled from `S`; the cache holds exactly one element,
under `S`; and the compiler was called at least once and at most once per
thread. -/
theorem racing_compiles_tolerated (S : String) (calls : List JobCall)
    (hN : 1 ≤ calls.length) (hS : ∀ j ∈ calls, j.script = S)
    (hvalid : ∀ j ∈ calls, j.Compiles) (schedule : List Nat) :
    ((Shared.start calls).run schedule).threads.map Thread.call = calls ∧
    ((∀ i < calls.length, 5 ≤ schedule.count i) →
      ∀ t ∈ ((Shared.start calls).run schedule).threads, t.pc = .returned) ∧
    ((∀ t ∈ ((Shared.start calls).run schedule).threads, t.pc = .returned) →
      (∀ t ∈ ((Shared.start calls).run schedule).threads, ∃ a r,
        ((Shared.start calls).run schedule).Compiled S a ∧
        Event.InstantiateGlobalStencil t.call.cx a r ∈ t.events) ∧
      (∃ a, ((Shared.start calls).run schedule).cache._cache = [(S, some a)]) ∧
      1 ≤ ((Shared.start calls).run schedule).compilerCalls ∧
      ((Shared.start calls).run schedule).compilerCalls ≤ calls.length) := by
  have hcalls : ((Shared.start calls).run schedule).threads.map Thread.call = calls := by
    rw [Shared.run_calls, Shared.start_calls]
  have hlen : ((Shared.start calls).run schedule).threads.length = calls.length := by
    have := congrArg List.length hcalls
    simpa using this
  have hinv := Shared.Inv_run S schedule _ (Shared.Inv_start S calls hS hvalid)
  refine ⟨hcalls, ?_, ?_⟩
  · intro hfair t ht
    obtain ⟨n, hn⟩ := List.getElem?_of_mem ht
    have hnlt : n < calls.length := by
      rw [← hlen]; exact (List.getElem?_eq_some.mp hn).1
    have hstart : (Shared.start calls).threads[n]? = some (Thread.start calls[n] []) := by
      simp [Shared.start, hnlt]
    obtain ⟨t', ht', hr⟩ := Shared.run_rank schedule _ n _ hstart
    rw [hn] at ht'
    cases ht'
    have h5 := hfair n hnlt
    apply Pc.eq_returned_of_rank
    have h0 : (Thread.start calls[n] []).pc.rank = 0 := rfl
    rw [h0] at hr
    omega
  · intro hdone
    obtain ⟨hcache, hthreads⟩ := hinv
    have hret : ∀ t ∈ ((Shared.start calls).run schedule).threads,
        ((Shared.start calls).run schedule).cache._cache ≠ [] ∧ ∃ a r,
        ((Shared.start calls).run schedule).Compiled S a ∧
        Event.InstantiateGlobalStencil t.call.cx a r ∈ t.events := by
      intro t ht
      have hi := (hthreads t ht).2.2.2
      rw [hdone t ht] at hi
      exact hi
    have hne : ((Shared.start calls).run schedule).cache._cache ≠ [] := by
      cases hth : ((Shared.start calls).run schedule).threads with
      | nil => rw [hth] at hlen; simp at hlen; omega
      | cons t rest => exact (hret t (by rw [hth]; simp)).1
    obtain ⟨a, ha, hca⟩ : ∃ a, ((Shared.start calls).run schedule).cache._cache =
        [(S, some a)] ∧ ((Shared.start calls).run schedule).Compiled S a := by
      rcases hcache with hnil | h
      · exact absurd hnil hne
      · exact h
    refine ⟨fun t ht => (hret t ht).2, ⟨a, ha⟩, Shared.compilerCalls_pos _ S a hca, ?_⟩
    rw [← hlen]
    exact Shared.compilerCalls_le _ (fun t ht => (hthreads t ht).2.2.1)

/-- The theorem `racing_compiles_tolerated` for two threads that both miss the
cache, both compile `js1` and both insert: the cache ends with the artifact of
the thread that inserted first, and the compiler was called at most twice. -/
theorem racing_compiles_tolerated_witness :
    1 ≤ [JobCall.mk 0 js1 "none" 1 (Outcomes.allSucceed 5 1),
        JobCall.mk 1 js1 "none" 1 (Outcomes.allSucceed 6 2)].length ∧
      ((Shared.start [JobCall.mk 0 js1 "none" 1 (Outcomes.allSucceed 5 1),
          JobCall.mk 1 js1 "none" 1 (Outcomes.allSucceed 6 2)]).run
        [0, 1, 1, 0, 1, 0, 0, 1, 0, 1]).cache._cache = [(js1, some 2)] ∧
      ((Shared.start [JobCall.mk 0 js1 "none" 1 (Outcomes.allSucceed 5 1),
          JobCall.mk 1 js1 "none" 1 (Outcomes.allSucceed 6 2)]).run
        [0, 1, 1, 0, 1, 0, 0, 1, 0, 1]).compilerCalls ≤
        [JobCall.mk 0 js1 "none" 1 (Outcomes.allSucceed 5 1),
          JobCall.mk 1 js1 "none" 1 (Outcomes.allSucceed 6 2)].length :=
  ⟨by decide, by decide,
    ((racing_compiles_tolerated js1
      [JobCall.mk 0 js1 "none" 1 (Outcomes.allSucceed 5 1),
        JobCall.mk 1 js1 "none" 1 (Outcomes.allSucceed 6 2)]
      (by decide) (by decide) (by decide) [0, 1, 1, 0, 1, 0, 0, 1, 0, 1]).2.2
        (by decide)).2.2.2⟩

end Stencils
